import Mathlib

/-!
Verification development for `graper/network/downloader.py`.

The Python module is shallowly embedded: Python values that the downloader
manipulates (strings, booleans, numbers, `None`, dicts) become the inductive
type `Val`; Python dicts become association lists `KV` with unique keys;
`time.time()` instants and zset scores become rationals; `random.choice` and
`random.randint` become explicit oracle parameters; fallible Python code
returns `Except`.  Every definition follows the corresponding source function
line by line; oracles stand for external collaborators (the HTTP transport,
the proxy pool, `util.format_headers`) whose internals are outside the module.
-/

set_option maxHeartbeats 1000000
set_option maxRecDepth 10000

/-- A Python value, restricted to the shapes the downloader manipulates:
`None`, booleans, integers, strings and string-keyed dicts. -/
inductive Val : Type where
  | none : Val
  | bool : Bool → Val
  | int : Int → Val
  | str : String → Val
  | dict : List (String × Val) → Val

/-- Python truthiness for `Val`: `None`, `False`, `0`, `""` and the empty
dict are falsy, everything else is truthy. -/
def Val.truthy : Val → Bool
  | .none => false
  | .bool b => b
  | .int n => n != 0
  | .str s => s != ""
  | .dict d => !d.isEmpty

/-- `v is None` as a Boolean test. -/
def Val.isNone : Val → Bool
  | .none => true
  | _ => false

/-- A Python dict with string keys, modelled as an association list whose
keys are unique (insertion order is kept, as in Python). -/
abbrev KV : Type := List (String × Val)

/-- Dict lookup: `kv.get(k)`, returning `none` when the key is absent. -/
def kvGet : KV → String → Option Val
  | [], _ => Option.none
  | (k', v) :: rest, k => if k' = k then some v else kvGet rest k

/-- Dict membership test: `k in kv`. -/
def kvHas (kv : KV) (k : String) : Bool :=
  (kvGet kv k).isSome

/-- Dict assignment `kv[k] = v`: replaces the value at an existing key in
place, otherwise appends the new pair at the end (Python dict semantics). -/
def kvSet : KV → String → Val → KV
  | [], k, v => [(k, v)]
  | (k', v') :: rest, k, v =>
    if k' = k then (k, v) :: rest else (k', v') :: kvSet rest k v

/-- Dict update `kv.update(upd)`: assigns every pair of `upd` into `kv`,
so keys of `upd` win over keys already in `kv`. -/
def kvUpdate (kv : KV) (upd : KV) : KV :=
  upd.foldl (fun acc p => kvSet acc p.1 p.2) kv

/-- Dict removal `kv.pop(k, None)`: drops the key `k`. -/
def kvPop : KV → String → KV
  | [], _ => []
  | (k', v) :: rest, k =>
    if k' = k then kvPop rest k else (k', v) :: kvPop rest k

theorem kvGet_kvSet_self (kv : KV) (k : String) (v : Val) :
    kvGet (kvSet kv k v) k = some v := by
  induction kv with
  | nil => simp [kvSet, kvGet]
  | cons p rest ih =>
    obtain ⟨k₀, v₀⟩ := p
    by_cases h : k₀ = k
    · simp [kvSet, kvGet, h]
    · simp [kvSet, kvGet, h, ih]

theorem kvGet_kvSet_ne (kv : KV) (k k' : String) (v : Val) (h : k ≠ k') :
    kvGet (kvSet kv k' v) k = kvGet kv k := by
  have h' : k' ≠ k := Ne.symm h
  induction kv with
  | nil => simp [kvSet, kvGet, h']
  | cons p rest ih =>
    obtain ⟨k₀, v₀⟩ := p
    by_cases h0 : k₀ = k'
    · subst h0
      simp [kvSet, kvGet, h']
    · simp only [kvSet, if_neg h0, kvGet]
      by_cases h1 : k₀ = k
      · simp [h1]
      · simp [h1, ih]

theorem kvGet_kvPop_ne (kv : KV) (k k' : String) (h : k ≠ k') :
    kvGet (kvPop kv k') k = kvGet kv k := by
  have h' : k' ≠ k := Ne.symm h
  induction kv with
  | nil => simp [kvPop]
  | cons p rest ih =>
    obtain ⟨k₀, v₀⟩ := p
    by_cases h0 : k₀ = k'
    · subst h0
      simp [kvPop, kvGet, h', ih]
    · simp only [kvPop, if_neg h0, kvGet]
      by_cases h1 : k₀ = k
      · simp [h1]
      · simp [h1, ih]

theorem kvGet_foldl_kvSet_not_mem (upd : KV) (kv : KV) (k : String)
    (h : ∀ p ∈ upd, p.1 ≠ k) :
    kvGet (upd.foldl (fun acc p => kvSet acc p.1 p.2) kv) k = kvGet kv k := by
  induction upd generalizing kv with
  | nil => rfl
  | cons p rest ih =>
    have hp : p.1 ≠ k := h p (by simp)
    have hrest : ∀ q ∈ rest, q.1 ≠ k := fun q hq => h q (by simp [hq])
    simp only [List.foldl_cons]
    rw [ih (kvSet kv p.1 p.2) hrest, kvGet_kvSet_ne kv k p.1 p.2 (Ne.symm hp)]

/-- If a key occurs in `upd` (with unique keys), updating `kv` with `upd`
makes the lookup return `upd`'s value: the updating dict wins. -/
theorem kvGet_kvUpdate_of_mem (kv upd : KV) (k : String) (v : Val)
    (hnd : (upd.map Prod.fst).Nodup) (h : kvGet upd k = some v) :
    kvGet (kvUpdate kv upd) k = some v := by
  induction upd generalizing kv with
  | nil => simp [kvGet] at h
  | cons p rest ih =>
    obtain ⟨k₀, v₀⟩ := p
    simp only [List.map_cons, List.nodup_cons] at hnd
    by_cases h0 : k₀ = k
    · subst h0
      simp only [kvGet, if_pos rfl] at h
      obtain rfl : v₀ = v := by injection h
      have hrest : ∀ q ∈ rest, q.1 ≠ k₀ := by
        intro q hq hqk
        exact hnd.1 (hqk ▸ List.mem_map_of_mem Prod.fst hq)
      simp only [kvUpdate, List.foldl_cons]
      rw [kvGet_foldl_kvSet_not_mem rest _ k₀ hrest, kvGet_kvSet_self]
    · simp only [kvGet, if_neg h0] at h
      simp only [kvUpdate, List.foldl_cons]
      exact ih (kvSet kv k₀ v₀) hnd.2 h

theorem kvGet_kvUpdate_not_mem (kv upd : KV) (k : String)
    (h : kvGet upd k = Option.none) :
    kvGet (kvUpdate kv upd) k = kvGet kv k := by
  induction upd generalizing kv with
  | nil => rfl
  | cons p rest ih =>
    obtain ⟨k₀, v₀⟩ := p
    by_cases h0 : k₀ = k
    · simp [kvGet, h0] at h
    · simp only [kvGet, if_neg h0] at h
      simp only [kvUpdate, List.foldl_cons] at *
      rw [ih (kvSet kv k₀ v₀) h, kvGet_kvSet_ne kv k k₀ v₀ (fun hh => h0 hh.symm)]

/-!
## CookiePool (downloader.py lines 170-188)

`CookiePool.cookie_list` is a `collections.deque(maxlen=10000)`: `add`
appends on the right (evicting the leftmost element when full), `get` pops
from the right and returns `None` when the deque is empty (the `IndexError`
is caught).  The element type is left generic, as the Python pool stores
arbitrary cookie objects.
-/

/-- `collections.deque(maxlen).append(x)`: append on the right; when the
deque already holds `maxlen` elements the leftmost one is discarded. -/
def dequeAppend (maxlen : Nat) (xs : List α) (x : α) : List α :=
  if xs.length < maxlen then xs ++ [x] else xs.tail ++ [x]

/-- In-memory bounded cookie pool (`CookiePool`): `cookie_list` is the
deque with `maxlen=10000`, leftmost element oldest. -/
structure CookiePool (α : Type) where
  cookie_list : List α

/-- `CookiePool.add`: `self.cookie_list.append(cookies)`. -/
def CookiePool.add (p : CookiePool α) (cookies : α) : CookiePool α :=
  ⟨dequeAppend 10000 p.cookie_list cookies⟩

/-- `CookiePool.get`: `self.cookie_list.pop()` with the exception on an
empty deque caught and turned into `None`.  Returns the popped value and
the state of the pool afterwards. -/
def CookiePool.get (p : CookiePool α) : Option α × CookiePool α :=
  match p.cookie_list.getLast? with
  | Option.none => (Option.none, p)
  | some r => (some r, ⟨p.cookie_list.dropLast⟩)

/-- `CookiePool.__len__`. -/
def CookiePool.length (p : CookiePool α) : Nat :=
  p.cookie_list.length

/-- One client-visible operation on a `CookiePool`. -/
inductive PoolOp (α : Type) where
  | add : α → PoolOp α
  | get : PoolOp α

/-- Run a sequence of operations, returning the final pool state. -/
def CookiePool.runOps (p : CookiePool α) : List (PoolOp α) → CookiePool α
  | [] => p
  | PoolOp.add c :: ops => (p.add c).runOps ops
  | PoolOp.get :: ops => (p.get).2.runOps ops

/-- Run a sequence of operations, returning every value a `get` returned. -/
def CookiePool.runOutputs (p : CookiePool α) : List (PoolOp α) → List α
  | [] => []
  | PoolOp.add c :: ops => (p.add c).runOutputs ops
  | PoolOp.get :: ops =>
    match p.get with
    | (some r, p') => r :: p'.runOutputs ops
    | (Option.none, p') => p'.runOutputs ops

theorem dequeAppend_length_le (maxlen : Nat) (xs : List α) (x : α)
    (h : xs.length ≤ maxlen) (h1 : 1 ≤ maxlen) :
    (dequeAppend maxlen xs x).length ≤ maxlen := by
  unfold dequeAppend
  split
  · simp
    omega
  · simp [List.length_tail]
    omega

theorem CookiePool.get_length_le (p : CookiePool α) :
    (p.get).2.cookie_list.length ≤ p.cookie_list.length := by
  unfold CookiePool.get
  cases h : p.cookie_list.getLast? <;> simp [List.length_dropLast]

theorem CookiePool.runOps_length_le (p : CookiePool α) (ops : List (PoolOp α))
    (h : p.cookie_list.length ≤ 10000) :
    ((p.runOps ops).cookie_list).length ≤ 10000 := by
  induction ops generalizing p with
  | nil => exact h
  | cons op ops ih =>
    cases op with
    | add c =>
      exact ih _ (dequeAppend_length_le 10000 p.cookie_list c h (by omega))
    | get =>
      exact ih _ (le_trans (CookiePool.get_length_le p) h)

theorem CookiePool.not_mem_add (p : CookiePool α) (c x : α) (hx : x ≠ c)
    (h : c ∉ p.cookie_list) : c ∉ (p.add x).cookie_list := by
  unfold CookiePool.add dequeAppend
  intro hc
  have hc' : c ∈ p.cookie_list ∨ c = x := by
    split at hc <;> rcases List.mem_append.mp hc with h1 | h1
    · exact Or.inl h1
    · exact Or.inr (List.mem_singleton.mp h1)
    · exact Or.inl ((List.tail_sublist p.cookie_list).mem h1)
    · exact Or.inr (List.mem_singleton.mp h1)
  rcases hc' with h1 | h1
  · exact h h1
  · exact hx h1.symm

theorem CookiePool.not_mem_runOps (p : CookiePool α) (ops : List (PoolOp α)) (c : α)
    (hops : ∀ x, PoolOp.add x ∈ ops → x ≠ c)
    (h : c ∉ p.cookie_list) :
    c ∉ (p.runOps ops).cookie_list ∧ c ∉ p.runOutputs ops := by
  induction ops generalizing p with
  | nil => exact ⟨h, by simp [CookiePool.runOutputs]⟩
  | cons op ops ih =>
    cases op with
    | add x =>
      have hx : x ≠ c := hops x (by simp)
      have hops' : ∀ y, PoolOp.add y ∈ ops → y ≠ c :=
        fun y hy => hops y (by simp [hy])
      exact ih _ hops' (CookiePool.not_mem_add p c x hx h)
    | get =>
      have hops' : ∀ y, PoolOp.add y ∈ ops → y ≠ c :=
        fun y hy => hops y (by simp [hy])
      unfold CookiePool.runOps CookiePool.runOutputs
      cases hg : p.cookie_list.getLast? with
      | none =>
        simp only [CookiePool.get, hg]
        exact ih p hops' h
      | some r =>
        have hr : r ∈ p.cookie_list := List.mem_of_getLast?_eq_some hg
        have hrc : c ≠ r := fun hh => h (hh ▸ hr)
        have hdrop : c ∉ p.cookie_list.dropLast :=
          fun hh => h ((p.cookie_list.dropLast_sublist).mem hh)
        have := ih (⟨p.cookie_list.dropLast⟩ : CookiePool α) hops' hdrop
        simp only [CookiePool.get, hg]
        exact ⟨this.1, by
          intro hmem
          rcases List.mem_cons.mp hmem with h1 | h1
          · exact hrc h1
          · exact this.2 h1⟩

theorem CookiePool.runOps_append (p : CookiePool α) (l1 l2 : List (PoolOp α)) :
    p.runOps (l1 ++ l2) = (p.runOps l1).runOps l2 := by
  induction l1 generalizing p with
  | nil => rfl
  | cons op ops ih =>
    cases op with
    | add c =>
      simp only [List.cons_append, CookiePool.runOps]
      exact ih _
    | get =>
      simp only [List.cons_append, CookiePool.runOps]
      exact ih _

theorem CookiePool.runOps_adds_small (p : CookiePool α) (vs : List α)
    (h : p.cookie_list.length + vs.length ≤ 10000) :
    (p.runOps (vs.map PoolOp.add)).cookie_list = p.cookie_list ++ vs := by
  induction vs generalizing p with
  | nil => simp [CookiePool.runOps]
  | cons v vs ih =>
    have hlt : p.cookie_list.length < 10000 := by
      simp only [List.length_cons] at h
      omega
    have hadd : (p.add v).cookie_list = p.cookie_list ++ [v] := by
      simp [CookiePool.add, dequeAppend, if_pos hlt]
    simp only [List.map_cons, CookiePool.runOps]
    rw [ih (p.add v) (by simp [hadd]; simp only [List.length_cons] at h; omega)]
    simp [hadd]

theorem CookiePool.add_evicts_oldest (p : CookiePool α) (v : α)
    (h : p.cookie_list.length = 10000) :
    (p.add v).cookie_list = p.cookie_list.tail ++ [v] := by
  simp [CookiePool.add, dequeAppend, h]

/-- Claim C8: over every sequence of `CookiePool.add` and `get` operations
the pool never holds more than its fixed capacity of 10000 entries; adding
to a full pool silently evicts the oldest entry, so after capacity+1
insertions with no intervening removals the first-inserted element is gone
from the pool and is never returned by any later `get` (that does not
re-insert it); `get` pops the most recently added element, and on an empty
pool returns `None` without raising. -/
theorem claim_C8 {α : Type} (c : α) (cs : List α)
    (hlen : cs.length = 10000) (hc : c ∉ cs) :
    (∀ ops : List (PoolOp α),
      ((CookiePool.runOps ⟨[]⟩ ops).cookie_list).length ≤ 10000) ∧
    (CookiePool.runOps ⟨[]⟩ ((c :: cs).map PoolOp.add)).cookie_list = cs ∧
    (∀ ops : List (PoolOp α), (∀ x, PoolOp.add x ∈ ops → x ≠ c) →
      c ∉ CookiePool.runOutputs
            (CookiePool.runOps ⟨[]⟩ ((c :: cs).map PoolOp.add)) ops) ∧
    (∀ (p : CookiePool α) (x : α), ((p.add x).get).1 = some x) ∧
    (CookiePool.get (⟨[]⟩ : CookiePool α))
      = (Option.none, (⟨[]⟩ : CookiePool α)) := by
  have hsplit : ∃ ds e, cs = ds ++ [e] := by
    cases hg : cs.getLast? with
    | none =>
      rw [List.getLast?_eq_none_iff] at hg
      subst hg
      simp at hlen
    | some e =>
      obtain ⟨ds, hds⟩ := List.getLast?_eq_some_iff.mp hg
      exact ⟨ds, e, hds⟩
  obtain ⟨ds, e, rfl⟩ := hsplit
  have hds : ds.length = 9999 := by
    simp at hlen
    omega
  have hrun : (CookiePool.runOps ⟨[]⟩
      ((c :: (ds ++ [e])).map PoolOp.add)).cookie_list = ds ++ [e] := by
    have h1 : (c :: (ds ++ [e])).map PoolOp.add
        = ((c :: ds).map PoolOp.add) ++ [PoolOp.add e] := by simp
    rw [h1, CookiePool.runOps_append]
    have h2 : (CookiePool.runOps ⟨[]⟩ ((c :: ds).map PoolOp.add)).cookie_list
        = c :: ds := by
      have h3 := CookiePool.runOps_adds_small (⟨[]⟩ : CookiePool α) (c :: ds)
        (by simp [hds])
      simpa using h3
    have h4 : (CookiePool.runOps ⟨[]⟩ ((c :: ds).map PoolOp.add)).runOps [PoolOp.add e]
        = (CookiePool.runOps ⟨[]⟩ ((c :: ds).map PoolOp.add)).add e := rfl
    rw [h4, CookiePool.add_evicts_oldest _ e (by rw [h2]; simp [hds]), h2]
    simp
  refine ⟨?_, hrun, ?_, ?_, ?_⟩
  · intro ops
    exact CookiePool.runOps_length_le _ ops (by simp)
  · intro ops hops
    have hnm : c ∉ (CookiePool.runOps ⟨[]⟩
        ((c :: (ds ++ [e])).map PoolOp.add)).cookie_list := by
      rw [hrun]
      exact hc
    exact (CookiePool.not_mem_runOps _ ops c hops hnm).2
  · intro p x
    unfold CookiePool.add dequeAppend
    by_cases h : p.cookie_list.length < 10000
    · simp [CookiePool.get, if_pos h, List.getLast?_concat]
    · simp [CookiePool.get, if_neg h, List.getLast?_concat]
  · rfl

theorem claim_C8_witness :
    (((List.range 10000).map (fun i => i + 1)).length = 10000 ∧
      (0 : Nat) ∉ (List.range 10000).map (fun i => i + 1)) ∧
    (CookiePool.runOps ⟨[]⟩
        ((0 :: (List.range 10000).map (fun i => i + 1)).map PoolOp.add)).cookie_list
      = (List.range 10000).map (fun i => i + 1) :=
  ⟨⟨by simp, by simp⟩,
    (claim_C8 0 ((List.range 10000).map (fun i => i + 1))
      (by simp) (by simp)).2.1⟩

/-!
## LimitRedisCookiePool (downloader.py lines 191-256)

The distributed rate-limited pool stores cookies as members of a Redis
sorted set (zset) keyed by `"LimitRedisCookiePool:<namespace>"`; scores are
`time.time()` values, modelled as rationals.  `random.randint` (the jitter
sample) and `random.choice` (candidate selection) are oracle parameters,
and `time.sleep(1)` between attempts is idealized as the next attempt
happening exactly one second later with instantaneous queries.
-/

/-- A Redis sorted set: members paired with their rational scores.  Members
are unique (a zset is a set); insertion keeps list order, which is
immaterial because candidate selection is by an arbitrary oracle. -/
abbrev Zset : Type := List (String × ℚ)

/-- `redis.zscore`: the score of a member, if present. -/
def zscore : Zset → String → Option ℚ
  | [], _ => Option.none
  | (k, v) :: rest, m => if k = m then some v else zscore rest m

/-- `redis.zadd(key, member=score)`: overwrite the score of an existing
member, or insert the member with the given score. -/
def zadd : Zset → String → ℚ → Zset
  | [], m, sc => [(m, sc)]
  | (k, v) :: rest, m, sc =>
    if k = m then (m, sc) :: rest else (k, v) :: zadd rest m sc

/-- `redis.zrangebyscore(key, "-inf", mx)`: every member whose score is at
most `mx`. -/
def zrangebyscore (st : Zset) (mx : ℚ) : List String :=
  (st.filter (fun p => p.2 ≤ mx)).map Prod.fst

/-- The distributed rate-limited cookie pool: the zset stored at its
`cookie_key`, the reuse interval `limit` (seconds) and the jitter bound
`with_random` (the code asserts `with_random >= 0`). -/
structure LimitRedisCookiePool where
  state : Zset
  limit : ℚ
  with_random : ℚ

/-- The retry loop of `LimitRedisCookiePool.get` (lines 226-236): each
attempt at current time `t` queries the zset for members scored in
`(-inf, t - lim]`; if there are none it sleeps one second and retries (the
next attempt happens at `t + 1`); otherwise it selects the candidate at
index `pick cs % cs.length` (`random.choice` as an oracle), re-scores it to
the current time `t`, and returns it.  After `n` attempts without a
candidate the result is `None` and the zset is unchanged. -/
def LimitRedisCookiePool.getLoop (st : Zset) (lim : ℚ)
    (pick : List String → Nat) : ℚ → Nat → Option String × Zset
  | _, 0 => (Option.none, st)
  | t, n + 1 =>
    let cs := zrangebyscore st (t - lim)
    if cs = [] then LimitRedisCookiePool.getLoop st lim pick (t + 1) n
    else
      let c := cs.getD (pick cs % cs.length) ""
      (some c, zadd st c t)

/-- `LimitRedisCookiePool.get(retry=3)` (lines 221-237): the effective
limit is `limit + r` where `r` is the jitter sampled once per call
(`random.randint(-with_random, with_random)` when `with_random` is nonzero,
otherwise `r = 0`); then the retry loop runs, with the first attempt at the
issue time `t`. -/
def LimitRedisCookiePool.get (p : LimitRedisCookiePool) (r : ℚ)
    (pick : List String → Nat) (t : ℚ) (retry : Nat) : Option String × Zset :=
  LimitRedisCookiePool.getLoop p.state (p.limit + r) pick t retry

/-- `LimitRedisCookiePool.add(cookie, delay=0)` (lines 239-252) called at
time `t`: every cookie of the list is inserted with score `t + delay`. -/
def LimitRedisCookiePool.add (p : LimitRedisCookiePool) (cookies : List String)
    (t delay : ℚ) : Zset :=
  cookies.foldl (fun st c => zadd st c (t + delay)) p.state

/-- `LimitRedisCookiePool.delete(cookie)` (lines 254-256): `zrem`. -/
def LimitRedisCookiePool.delete (p : LimitRedisCookiePool)
    (cookie : String) : Zset :=
  p.state.filter (fun q => q.1 != cookie)

theorem zscore_zadd_self (st : Zset) (m : String) (sc : ℚ) :
    zscore (zadd st m sc) m = some sc := by
  induction st with
  | nil => simp [zadd, zscore]
  | cons p rest ih =>
    obtain ⟨k, v⟩ := p
    by_cases hk : k = m
    · simp [zadd, zscore, hk]
    · simp [zadd, zscore, hk, ih]

theorem zscore_zadd_ne (st : Zset) (m m' : String) (sc : ℚ) (h : m' ≠ m) :
    zscore (zadd st m sc) m' = zscore st m' := by
  have h' : m ≠ m' := Ne.symm h
  induction st with
  | nil => simp [zadd, zscore, h']
  | cons p rest ih =>
    obtain ⟨k, v⟩ := p
    by_cases hk : k = m
    · subst hk
      simp [zadd, zscore, h']
    · simp only [zadd, if_neg hk, zscore]
      by_cases hk' : k = m'
      · simp [hk']
      · simp [hk', ih]

theorem mem_keys_zadd (st : Zset) (m a : String) (sc : ℚ) :
    a ∈ (zadd st m sc).map Prod.fst ↔ a ∈ st.map Prod.fst ∨ a = m := by
  induction st with
  | nil => simp [zadd]
  | cons p rest ih =>
    obtain ⟨k, v⟩ := p
    by_cases hk : k = m
    · subst hk
      simp only [zadd, if_pos rfl]
      simp
      tauto
    · simp only [zadd, if_neg hk]
      simp [ih]
      tauto

theorem zadd_keys_nodup (st : Zset) (m : String) (sc : ℚ)
    (h : (st.map Prod.fst).Nodup) : ((zadd st m sc).map Prod.fst).Nodup := by
  induction st with
  | nil => simp [zadd]
  | cons p rest ih =>
    obtain ⟨k, v⟩ := p
    simp only [List.map_cons, List.nodup_cons] at h
    by_cases hk : k = m
    · subst hk
      have hz : zadd ((k, v) :: rest) k sc = (k, sc) :: rest := by
        simp [zadd]
      rw [hz]
      simp only [List.map_cons, List.nodup_cons]
      exact ⟨h.1, h.2⟩
    · simp only [zadd, if_neg hk, List.map_cons, List.nodup_cons]
      refine ⟨?_, ih h.2⟩
      intro hmem
      rcases (mem_keys_zadd rest m k sc).mp hmem with h1 | h1
      · exact h.1 h1
      · exact hk h1

theorem zscore_eq_of_mem (st : Zset) (c : String) (v : ℚ)
    (hnd : (st.map Prod.fst).Nodup) (h : (c, v) ∈ st) :
    zscore st c = some v := by
  induction st with
  | nil => simp at h
  | cons p rest ih =>
    obtain ⟨k, w⟩ := p
    simp only [List.map_cons, List.nodup_cons] at hnd
    rcases List.mem_cons.mp h with h1 | h1
    · have h1a : c = k := congrArg Prod.fst h1
      have h1b : v = w := congrArg Prod.snd h1
      subst h1a
      subst h1b
      simp [zscore]
    · by_cases hk : k = c
      · subst hk
        exact absurd (List.mem_map_of_mem Prod.fst h1) hnd.1
      · simp only [zscore, if_neg hk]
        exact ih hnd.2 h1

theorem mem_zrangebyscore (st : Zset) (mx : ℚ) (c : String) :
    c ∈ zrangebyscore st mx ↔ ∃ v : ℚ, (c, v) ∈ st ∧ v ≤ mx := by
  unfold zrangebyscore
  simp only [List.mem_map, List.mem_filter]
  constructor
  · rintro ⟨⟨a, b⟩, ⟨hmem, hle⟩, rfl⟩
    exact ⟨b, hmem, by simpa using hle⟩
  · rintro ⟨v, hmem, hle⟩
    exact ⟨(c, v), ⟨hmem, by simpa using hle⟩, rfl⟩

theorem getLoop_empty_step (st : Zset) (lim : ℚ) (pick : List String → Nat)
    (t : ℚ) (n : Nat) (h : zrangebyscore st (t - lim) = []) :
    LimitRedisCookiePool.getLoop st lim pick t (n + 1)
      = LimitRedisCookiePool.getLoop st lim pick (t + 1) n := by
  simp [LimitRedisCookiePool.getLoop, h]

theorem getLoop_select (st : Zset) (lim : ℚ) (pick : List String → Nat)
    (t : ℚ) (n : Nat) (h : zrangebyscore st (t - lim) ≠ []) :
    ∃ c, c ∈ zrangebyscore st (t - lim) ∧
      LimitRedisCookiePool.getLoop st lim pick t (n + 1) = (some c, zadd st c t) := by
  have hlen : 0 < (zrangebyscore st (t - lim)).length := List.length_pos.mpr h
  have hidx : pick (zrangebyscore st (t - lim)) % (zrangebyscore st (t - lim)).length
      < (zrangebyscore st (t - lim)).length := Nat.mod_lt _ hlen
  refine ⟨(zrangebyscore st (t - lim)).getD
    (pick (zrangebyscore st (t - lim)) % (zrangebyscore st (t - lim)).length) "", ?_, ?_⟩
  · rw [List.getD_eq_getElem _ _ hidx]
    exact List.getElem_mem hidx
  · simp only [LimitRedisCookiePool.getLoop]
    rw [if_neg h]

theorem getLoop_none_iff (st : Zset) (lim : ℚ) (pick : List String → Nat) :
    ∀ (n : Nat) (t : ℚ),
      ((LimitRedisCookiePool.getLoop st lim pick t n).1 = Option.none ↔
        ∀ k : Nat, k < n → zrangebyscore st (t + k - lim) = []) := by
  intro n
  induction n with
  | zero =>
    intro t
    simp [LimitRedisCookiePool.getLoop]
  | succ n ih =>
    intro t
    by_cases h : zrangebyscore st (t - lim) = []
    · rw [getLoop_empty_step st lim pick t n h, ih (t + 1)]
      constructor
      · intro hall k hk
        cases k with
        | zero => simpa using h
        | succ k =>
          have hh := hall k (by omega)
          have hcast : t + ((k + 1 : ℕ) : ℚ) - lim = t + 1 + (k : ℚ) - lim := by
            push_cast
            ring
          rw [hcast]
          exact hh
      · intro hall k hk
        have hh := hall (k + 1) (by omega)
        have hcast : t + 1 + (k : ℚ) - lim = t + ((k + 1 : ℕ) : ℚ) - lim := by
          push_cast
          ring
        rw [hcast]
        exact hh
    · obtain ⟨c, hc, heq⟩ := getLoop_select st lim pick t n h
      rw [heq]
      constructor
      · intro habs
        exact absurd habs (by simp)
      · intro hall
        exfalso
        apply h
        have h0 := hall 0 (Nat.succ_pos n)
        simpa using h0

theorem getLoop_none_state (st : Zset) (lim : ℚ) (pick : List String → Nat) :
    ∀ (n : Nat) (t : ℚ),
      (LimitRedisCookiePool.getLoop st lim pick t n).1 = Option.none →
      (LimitRedisCookiePool.getLoop st lim pick t n).2 = st := by
  intro n
  induction n with
  | zero =>
    intro t _
    rfl
  | succ n ih =>
    intro t h
    by_cases hcs : zrangebyscore st (t - lim) = []
    · rw [getLoop_empty_step st lim pick t n hcs] at h ⊢
      exact ih (t + 1) h
    · obtain ⟨c, _, heq⟩ := getLoop_select st lim pick t n hcs
      rw [heq] at h
      simp at h

theorem getLoop_some_spec (st : Zset) (lim : ℚ) (pick : List String → Nat) :
    ∀ (n : Nat) (t : ℚ) (c : String) (st' : Zset),
      LimitRedisCookiePool.getLoop st lim pick t n = (some c, st') →
      ∃ k : Nat, k < n ∧ c ∈ zrangebyscore st (t + k - lim)
        ∧ st' = zadd st c (t + k) := by
  intro n
  induction n with
  | zero =>
    intro t c st' h
    exact absurd (congrArg Prod.fst h) (by simp [LimitRedisCookiePool.getLoop])
  | succ n ih =>
    intro t c st' h
    by_cases hcs : zrangebyscore st (t - lim) = []
    · rw [getLoop_empty_step st lim pick t n hcs] at h
      obtain ⟨k, hk, hmem, hst⟩ := ih (t + 1) c st' h
      refine ⟨k + 1, by omega, ?_, ?_⟩
      · have hcast : t + ((k + 1 : ℕ) : ℚ) - lim = t + 1 + (k : ℚ) - lim := by
          push_cast
          ring
        rw [hcast]
        exact hmem
      · have hcast : t + ((k + 1 : ℕ) : ℚ) = t + 1 + (k : ℚ) := by
          push_cast
          ring
        rw [hcast]
        exact hst
    · obtain ⟨c', hc', heq⟩ := getLoop_select st lim pick t n hcs
      rw [heq] at h
      have h1 : some c' = some c := congrArg Prod.fst h
      have h2 : zadd st c' t = st' := congrArg Prod.snd h
      obtain rfl : c' = c := by injection h1
      refine ⟨0, Nat.succ_pos n, ?_, ?_⟩
      · simpa using hc'
      · rw [Nat.cast_zero, add_zero]
        exact h2.symm

theorem getLoop_ne_of_window (st : Zset) (lim : ℚ) (pick : List String → Nat)
    (c : String) (tc : ℚ)
    (hnd : (st.map Prod.fst).Nodup) (hsc : zscore st c = some tc) :
    ∀ (n : Nat) (t : ℚ), (∀ k : Nat, k < n → t + (k : ℚ) < tc + lim) →
      (LimitRedisCookiePool.getLoop st lim pick t n).1 ≠ some c := by
  intro n
  induction n with
  | zero =>
    intro t _ habs
    simp [LimitRedisCookiePool.getLoop] at habs
  | succ n ih =>
    intro t hwin
    by_cases hcs : zrangebyscore st (t - lim) = []
    · rw [getLoop_empty_step st lim pick t n hcs]
      apply ih (t + 1)
      intro k hk
      have hh := hwin (k + 1) (by omega)
      calc t + 1 + (k : ℚ) = t + ((k + 1 : ℕ) : ℚ) := by
            push_cast
            ring
        _ < tc + lim := hh
    · obtain ⟨c', hc', heq⟩ := getLoop_select st lim pick t n hcs
      rw [heq]
      intro habs
      have habs' : some c' = some c := habs
      obtain rfl : c' = c := by injection habs'
      obtain ⟨v, hv, hle⟩ := (mem_zrangebyscore st (t - lim) c').mp hc'
      have hvs : zscore st c' = some v := zscore_eq_of_mem st c' v hnd hv
      rw [hsc] at hvs
      obtain rfl : tc = v := by injection hvs
      have h0 := hwin 0 (Nat.succ_pos n)
      rw [Nat.cast_zero, add_zero] at h0
      linarith

theorem getLoop_select_singleton (st : Zset) (lim : ℚ) (pick : List String → Nat)
    (t : ℚ) (n : Nat) (c : String) (h : zrangebyscore st (t - lim) = [c]) :
    LimitRedisCookiePool.getLoop st lim pick t (n + 1) = (some c, zadd st c t) := by
  simp only [LimitRedisCookiePool.getLoop, h]
  simp [Nat.mod_one]

/-- Claim C1 (amended): with jitter 0, when a `get` issued at `t1` returns
cookie `c` and leaves it with score `s` (the selection time, at which the
score is rewritten), then `t1 ≤ s`, and no later `get` all of whose
attempts happen strictly before `s + limit` — issued at `t2` with
`t2 + retry ≤ s + limit`, the attempts being one second apart — returns `c`
again.  The claim as stated, which only requires the later call to be
*issued* before `s + limit`, fails: an attempt after a one-second sleep can
fall at or beyond `s + limit` and legitimately select the cookie (see the
counterexample). -/
theorem claim_C1_amended (st st1 : Zset) (lim : ℚ)
    (pick1 pick2 : List String → Nat) (t1 t2 s : ℚ) (n1 n2 : Nat) (c : String)
    (hnd : (st.map Prod.fst).Nodup)
    (h1 : LimitRedisCookiePool.get ⟨st, lim, 0⟩ 0 pick1 t1 n1 = (some c, st1))
    (hs : zscore st1 c = some s)
    (hw : t2 + (n2 : ℚ) ≤ s + lim) :
    t1 ≤ s ∧
    (LimitRedisCookiePool.get ⟨st1, lim, 0⟩ 0 pick2 t2 n2).1 ≠ some c := by
  unfold LimitRedisCookiePool.get at h1 ⊢
  obtain ⟨k, hk, hmem, hst1⟩ := getLoop_some_spec st (lim + 0) pick1 n1 t1 c st1 h1
  have hz : zscore st1 c = some (t1 + k) := by
    rw [hst1]
    exact zscore_zadd_self st c (t1 + (k : ℚ))
  rw [hs] at hz
  obtain rfl : s = t1 + (k : ℚ) := by injection hz
  constructor
  · have hk0 : (0 : ℚ) ≤ (k : ℚ) := Nat.cast_nonneg k
    linarith
  · have hnd1 : (st1.map Prod.fst).Nodup := by
      rw [hst1]
      exact zadd_keys_nodup st c (t1 + (k : ℚ)) hnd
    apply getLoop_ne_of_window st1 (lim + 0) pick2 c (t1 + (k : ℚ)) hnd1 hs n2 t2
    intro j hj
    have hjlt : (j : ℚ) < (n2 : ℚ) := by exact_mod_cast hj
    linarith

/-- Claim C1 counterexample: jitter 0, limit 2, cookie `"c"` selected (and
re-scored to 0) by a first get at time 0.  A second get ISSUED at time
1 < 0 + 2 finds no candidate at its first attempt, sleeps one second, and
its second attempt at time 2 returns `"c"` — so a get issued strictly
inside the limit window does return the cookie. -/
theorem claim_C1_counterexample :
    (LimitRedisCookiePool.get ⟨[("c", -10)], 2, 0⟩ 0 (fun _ => 0) 0 3
      = (some "c", [("c", 0)])) ∧
    (LimitRedisCookiePool.get ⟨[("c", 0)], 2, 0⟩ 0 (fun _ => 0) 1 3).1
      = some "c" ∧
    (1 : ℚ) < 0 + 2 := by
  refine ⟨?_, ?_, by norm_num⟩
  · show LimitRedisCookiePool.getLoop [("c", -10)] (2 + 0) (fun _ => 0) 0 3 = _
    have hc : zrangebyscore [("c", (-10 : ℚ))] (0 - (2 + 0)) = ["c"] := by
      norm_num [zrangebyscore]
    rw [show (3 : Nat) = 2 + 1 from rfl,
      getLoop_select_singleton _ _ _ _ _ _ hc]
    simp [zadd]
  · show (LimitRedisCookiePool.getLoop [("c", 0)] (2 + 0) (fun _ => 0) 1 3).1 = _
    have he : zrangebyscore [("c", (0 : ℚ))] (1 - (2 + 0)) = [] := by
      norm_num [zrangebyscore]
    have hc : zrangebyscore [("c", (0 : ℚ))] (1 + 1 - (2 + 0)) = ["c"] := by
      norm_num [zrangebyscore]
    rw [show (3 : Nat) = 2 + 1 from rfl, getLoop_empty_step _ _ _ _ _ he,
      show (2 : Nat) = 1 + 1 from rfl, getLoop_select_singleton _ _ _ _ _ _ hc]

theorem claim_C1_witness :
    ([("c", (-10 : ℚ))].map Prod.fst).Nodup ∧
    (LimitRedisCookiePool.get ⟨[("c", -10)], 5, 0⟩ 0 (fun _ => 0) 0 3
      = (some "c", [("c", 0)])) ∧
    zscore [("c", (0 : ℚ))] "c" = some 0 ∧
    (1 : ℚ) + ((3 : Nat) : ℚ) ≤ 0 + 5 ∧
    ((0 : ℚ) ≤ 0 ∧
      (LimitRedisCookiePool.get ⟨[("c", 0)], 5, 0⟩ 0 (fun _ => 0) 1 3).1
        ≠ some "c") := by
  have h1 : LimitRedisCookiePool.get ⟨[("c", -10)], 5, 0⟩ 0 (fun _ => 0) 0 3
      = (some "c", [("c", 0)]) := by
    show LimitRedisCookiePool.getLoop [("c", -10)] (5 + 0) (fun _ => 0) 0 3 = _
    have hc : zrangebyscore [("c", (-10 : ℚ))] (0 - (5 + 0)) = ["c"] := by
      norm_num [zrangebyscore]
    rw [show (3 : Nat) = 2 + 1 from rfl,
      getLoop_select_singleton _ _ _ _ _ _ hc]
    simp [zadd]
  have h2 : zscore [("c", (0 : ℚ))] "c" = some 0 := by simp [zscore]
  have h3 : (1 : ℚ) + ((3 : Nat) : ℚ) ≤ 0 + 5 := by norm_num
  exact ⟨by simp, h1, h2, h3,
    claim_C1_amended [("c", -10)] [("c", 0)] 5 (fun _ => 0) (fun _ => 0)
      0 1 0 3 3 "c" (by simp) h1 h2 h3⟩

/-- Claim C2 (amended): provided the jitter bound does not exceed the limit
(`with_random <= limit`, so every sampled effective limit is nonnegative),
a cookie inserted by `add(cookie, delay)` at time `t0` (score `t0 + delay`)
is never selected — i.e. returned and re-scored — by a `get` at any time
`s < t0 + delay`: whenever such a get returns the cookie, its completion
time `s` satisfies `t0 + delay ≤ s`.  The claim as stated, quantifying over
every configured limit and jitter, fails when the jitter exceeds the limit
(see the counterexample). -/
theorem claim_C2_amended (st st' : Zset) (c : String)
    (t0 delay lim w r t s : ℚ) (n : Nat) (pick : List String → Nat)
    (hnd : (st.map Prod.fst).Nodup)
    (hw0 : 0 ≤ w) (hwl : w ≤ lim) (hr1 : -w ≤ r) (hr2 : r ≤ w)
    (hget : LimitRedisCookiePool.get
        ⟨LimitRedisCookiePool.add ⟨st, lim, w⟩ [c] t0 delay, lim, w⟩ r pick t n
        = (some c, st'))
    (hs : zscore st' c = some s) :
    t0 + delay ≤ s := by
  unfold LimitRedisCookiePool.get at hget
  have hadd : LimitRedisCookiePool.add ⟨st, lim, w⟩ [c] t0 delay
      = zadd st c (t0 + delay) := rfl
  rw [hadd] at hget
  have hnd0 : ((zadd st c (t0 + delay)).map Prod.fst).Nodup :=
    zadd_keys_nodup st c (t0 + delay) hnd
  obtain ⟨k, hk, hmem, hst'⟩ :=
    getLoop_some_spec (zadd st c (t0 + delay)) (lim + r) pick n t c st' hget
  obtain ⟨v, hv, hle⟩ :=
    (mem_zrangebyscore (zadd st c (t0 + delay)) (t + k - (lim + r)) c).mp hmem
  have hvs : zscore (zadd st c (t0 + delay)) c = some v :=
    zscore_eq_of_mem _ c v hnd0 hv
  rw [zscore_zadd_self st c (t0 + delay)] at hvs
  obtain rfl : t0 + delay = v := by injection hvs
  have hs' : zscore st' c = some (t + (k : ℚ)) := by
    rw [hst']
    exact zscore_zadd_self _ c (t + (k : ℚ))
  rw [hs] at hs'
  obtain rfl : s = t + (k : ℚ) := by injection hs'
  linarith

/-- Claim C2 counterexample: limit 0, jitter 5 is a legal configuration
(the code only asserts `with_random >= 0`), and the sampled jitter −5 makes
the effective limit −5.  A cookie added at time 0 with `delay=10` (score
10) is returned by a get whose only attempt runs — and completes — at time
6 < 0 + 10. -/
theorem claim_C2_counterexample :
    ((0 : ℚ) ≤ 5 ∧ -(5 : ℚ) ≤ -5 ∧ (-5 : ℚ) ≤ 5) ∧
    LimitRedisCookiePool.add ⟨[], 0, 5⟩ ["c"] 0 10 = [("c", 10)] ∧
    LimitRedisCookiePool.get ⟨[("c", 10)], 0, 5⟩ (-5) (fun _ => 0) 6 3
      = (some "c", [("c", 6)]) ∧
    (6 : ℚ) < 0 + 10 := by
  refine ⟨⟨by norm_num, by norm_num, by norm_num⟩, ?_, ?_, by norm_num⟩
  · norm_num [LimitRedisCookiePool.add, zadd]
  · show LimitRedisCookiePool.getLoop [("c", 10)] (0 + -5) (fun _ => 0) 6 3 = _
    have hc : zrangebyscore [("c", (10 : ℚ))] (6 - (0 + -5)) = ["c"] := by
      norm_num [zrangebyscore]
    rw [show (3 : Nat) = 2 + 1 from rfl,
      getLoop_select_singleton _ _ _ _ _ _ hc]
    simp [zadd]

theorem claim_C2_witness :
    (([] : Zset).map Prod.fst).Nodup ∧
    ((0 : ℚ) ≤ 5 ∧ (5 : ℚ) ≤ 5 ∧ -(5 : ℚ) ≤ -5 ∧ (-5 : ℚ) ≤ 5) ∧
    (LimitRedisCookiePool.get
        ⟨LimitRedisCookiePool.add ⟨[], 5, 5⟩ ["c"] 0 10, 5, 5⟩ (-5)
        (fun _ => 0) 20 1 = (some "c", [("c", 20)])) ∧
    zscore [("c", (20 : ℚ))] "c" = some 20 ∧
    (0 : ℚ) + 10 ≤ 20 := by
  have hget : LimitRedisCookiePool.get
      ⟨LimitRedisCookiePool.add ⟨[], 5, 5⟩ ["c"] 0 10, 5, 5⟩ (-5)
      (fun _ => 0) 20 1 = (some "c", [("c", 20)]) := by
    show LimitRedisCookiePool.getLoop
      (LimitRedisCookiePool.add ⟨[], 5, 5⟩ ["c"] 0 10) (5 + -5)
      (fun _ => 0) 20 1 = _
    have hadd : LimitRedisCookiePool.add ⟨[], 5, 5⟩ ["c"] 0 10
        = [("c", 0 + 10)] := rfl
    rw [hadd]
    have hc : zrangebyscore [("c", (0 : ℚ) + 10)] (20 - (5 + -5)) = ["c"] := by
      norm_num [zrangebyscore]
    rw [show (1 : Nat) = 0 + 1 from rfl,
      getLoop_select_singleton _ _ _ _ _ _ hc]
    simp [zadd]
  have hsc : zscore [("c", (20 : ℚ))] "c" = some 20 := by simp [zscore]
  exact ⟨by simp, ⟨by norm_num, by norm_num, by norm_num, by norm_num⟩, hget, hsc,
    claim_C2_amended [] [("c", 20)] "c" 0 10 5 5 (-5) 20 20 1 (fun _ => 0)
      (by simp) (by norm_num) (by norm_num) (by norm_num) (by norm_num) hget hsc⟩

/-- Claim C3: `LimitRedisCookiePool.get(retry)` samples the jitter `r` once
per call (bounded by `with_random`), forming the effective limit
`limit + r`, and performs at most `retry` attempts: with no attempts left
it returns `None` leaving the zset unchanged; the result is `None` exactly
when every attempt's query for members scored at most `now - effective
limit` is empty; an attempt with no candidate sleeps one second and
retries; an attempt with candidates returns a member of the candidate list
(chosen by the `random.choice` oracle) and re-scores exactly that member to
the current time. -/
theorem claim_C3 (p : LimitRedisCookiePool) (r : ℚ) (pick : List String → Nat)
    (t : ℚ) (n : Nat)
    (hr1 : -p.with_random ≤ r) (hr2 : r ≤ p.with_random) :
    (p.get r pick t 0 = (Option.none, p.state)) ∧
    ((p.get r pick t n).1 = Option.none ↔
      ∀ k : Nat, k < n → zrangebyscore p.state (t + k - (p.limit + r)) = []) ∧
    ((p.get r pick t n).1 = Option.none → (p.get r pick t n).2 = p.state) ∧
    (zrangebyscore p.state (t - (p.limit + r)) = [] →
      p.get r pick t (n + 1) = p.get r pick (t + 1) n) ∧
    (zrangebyscore p.state (t - (p.limit + r)) ≠ [] →
      ∃ c, c ∈ zrangebyscore p.state (t - (p.limit + r)) ∧
        p.get r pick t (n + 1) = (some c, zadd p.state c t)) := by
  refine ⟨rfl, getLoop_none_iff p.state (p.limit + r) pick n t,
    getLoop_none_state p.state (p.limit + r) pick n t, ?_, ?_⟩
  · intro h
    exact getLoop_empty_step p.state (p.limit + r) pick t n h
  · intro h
    exact getLoop_select p.state (p.limit + r) pick t n h

theorem claim_C3_witness :
    (-(0 : ℚ) ≤ 0 ∧ (0 : ℚ) ≤ 0) ∧
    ((LimitRedisCookiePool.get ⟨[("a", 0)], 5, 0⟩ 0 (fun _ => 0) 10 0
        = (Option.none, [("a", 0)])) ∧
      ((LimitRedisCookiePool.get ⟨[("a", 0)], 5, 0⟩ 0 (fun _ => 0) 10 2).1
          = Option.none ↔
        ∀ k : Nat, k < 2 →
          zrangebyscore [("a", 0)] (10 + k - (5 + 0)) = []) ∧
      ((LimitRedisCookiePool.get ⟨[("a", 0)], 5, 0⟩ 0 (fun _ => 0) 10 2).1
          = Option.none →
        (LimitRedisCookiePool.get ⟨[("a", 0)], 5, 0⟩ 0 (fun _ => 0) 10 2).2
          = [("a", 0)]) ∧
      (zrangebyscore [("a", 0)] (10 - (5 + 0)) = [] →
        LimitRedisCookiePool.get ⟨[("a", 0)], 5, 0⟩ 0 (fun _ => 0) 10 3
          = LimitRedisCookiePool.get ⟨[("a", 0)], 5, 0⟩ 0 (fun _ => 0) (10 + 1) 2) ∧
      (zrangebyscore [("a", 0)] (10 - (5 + 0)) ≠ [] →
        ∃ c, c ∈ zrangebyscore [("a", 0)] (10 - (5 + 0)) ∧
          LimitRedisCookiePool.get ⟨[("a", 0)], 5, 0⟩ 0 (fun _ => 0) 10 3
            = (some c, zadd [("a", 0)] c 10))) :=
  ⟨⟨by norm_num, le_refl 0⟩,
    claim_C3 ⟨[("a", 0)], 5, 0⟩ 0 (fun _ => 0) 10 2 (by norm_num) (by norm_num)⟩

/-!
## Downloader.convert_http_protocol (downloader.py lines 361-384)

Python strings are sequences of code points; prefix tests and slicing are
modelled on the underlying character list.
-/

/-- Python `str.startswith(pre)`: prefix test on the code-point sequence. -/
def pyStartsWith (s pre : String) : Bool :=
  pre.data.isPrefixOf s.data

/-- Python slicing `s[n:]`: drop the first `n` code points. -/
def pyDrop (s : String) (n : Nat) : String :=
  ⟨s.data.drop n⟩

/-- The Python exceptions the embedded fragments can raise besides
string-message `Exception`s. -/
inductive PyErr where
  | attributeError : PyErr

/-- The url rewriting inside `convert_http_protocol` (lines 376-379):
`https...` gets its 5-character prefix replaced by `http`; otherwise
`http:...` gets its 4-character prefix `http` replaced by `https`; any
other string is returned unchanged. -/
def flipProtocol (url : String) : String :=
  if pyStartsWith url "https" then "http" ++ pyDrop url 5
  else if pyStartsWith url "http:" then "https" ++ pyDrop url 4
  else url

/-- `Downloader.convert_http_protocol` (lines 361-384): on a dict request
the `url` field is read (`None` when absent), flipped and written back; any
other request is itself the URL and is replaced by the flipped string.  A
non-string URL raises `AttributeError` (`url.startswith` on `None`). -/
def Downloader.convert_http_protocol (request : Val) : Except PyErr Val :=
  let urlv : Val :=
    match request with
    | Val.dict d => (kvGet d "url").getD Val.none
    | v => v
  match urlv with
  | Val.str url =>
    match request with
    | Val.dict d =>
      Except.ok (Val.dict (kvSet d "url" (Val.str (flipProtocol url))))
    | _ => Except.ok (Val.str (flipProtocol url))
  | _ => Except.error PyErr.attributeError

theorem pyStartsWith_https_false_of_http (u : String)
    (h : pyStartsWith u "http:" = true) : pyStartsWith u "https" = false := by
  cases hx : pyStartsWith u "https" with
  | false => rfl
  | true =>
    exfalso
    have h1 : "http:".data <+: u.data := List.isPrefixOf_iff_prefix.mp h
    have h2 : "https".data <+: u.data := List.isPrefixOf_iff_prefix.mp hx
    have hlen : ("http:".data).length = ("https".data).length := rfl
    rcases List.prefix_or_prefix_of_prefix h1 h2 with hp | hp
    · exact absurd (hp.eq_of_length hlen) (by decide)
    · exact absurd (hp.eq_of_length hlen.symm) (by decide)

/-- Claim C9: `convert_http_protocol` maps a URL string beginning with
`https` to the same URL with that prefix replaced by `http`, and a URL
string beginning with `http:` to the same URL with that prefix replaced by
`https:`; applied to a dict request, only the `url` field changes and every
other field is unchanged. -/
theorem claim_C9 (u : String) (d : List (String × Val)) :
    (pyStartsWith u "https" = true →
      Downloader.convert_http_protocol (Val.str u)
        = Except.ok (Val.str ("http" ++ pyDrop u 5))) ∧
    (pyStartsWith u "http:" = true →
      Downloader.convert_http_protocol (Val.str u)
        = Except.ok (Val.str ("https:" ++ pyDrop u 5))) ∧
    (∀ u' : String, kvGet d "url" = some (Val.str u') →
      Downloader.convert_http_protocol (Val.dict d)
        = Except.ok (Val.dict (kvSet d "url" (Val.str (flipProtocol u')))) ∧
      ∀ k : String, k ≠ "url" →
        kvGet (kvSet d "url" (Val.str (flipProtocol u'))) k = kvGet d k) := by
  refine ⟨?_, ?_, ?_⟩
  · intro h
    simp [Downloader.convert_http_protocol, flipProtocol, h]
  · intro h
    have hf : pyStartsWith u "https" = false :=
      pyStartsWith_https_false_of_http u h
    obtain ⟨t, ht⟩ := List.isPrefixOf_iff_prefix.mp h
    have hdata : ("https" ++ pyDrop u 4).data = ("https:" ++ pyDrop u 5).data := by
      rw [String.data_append, String.data_append]
      show "https".data ++ u.data.drop 4 = "https:".data ++ u.data.drop 5
      rw [← ht]
      rfl
    have hstr : "https" ++ pyDrop u 4 = "https:" ++ pyDrop u 5 := String.ext hdata
    simp [Downloader.convert_http_protocol, flipProtocol, h, hf, hstr]
  · intro u' hurl
    refine ⟨?_, ?_⟩
    · simp [Downloader.convert_http_protocol, hurl]
    · intro k hk
      exact kvGet_kvSet_ne d k "url" (Val.str (flipProtocol u')) hk

theorem claim_C9_witness :
    (pyStartsWith "https://a.com/x" "https" = true ∧
      Downloader.convert_http_protocol (Val.str "https://a.com/x")
        = Except.ok (Val.str ("http" ++ pyDrop "https://a.com/x" 5))) ∧
    (pyStartsWith "http://a.com/x" "http:" = true ∧
      Downloader.convert_http_protocol (Val.str "http://a.com/x")
        = Except.ok (Val.str ("https:" ++ pyDrop "http://a.com/x" 5))) ∧
    (kvGet [("url", Val.str "http://a.com/x"), ("n", Val.int 7)] "url"
        = some (Val.str "http://a.com/x") ∧
      Downloader.convert_http_protocol
          (Val.dict [("url", Val.str "http://a.com/x"), ("n", Val.int 7)])
        = Except.ok (Val.dict (kvSet [("url", Val.str "http://a.com/x"), ("n", Val.int 7)]
            "url" (Val.str (flipProtocol "http://a.com/x")))) ∧
      ∀ k : String, k ≠ "url" →
        kvGet (kvSet [("url", Val.str "http://a.com/x"), ("n", Val.int 7)]
            "url" (Val.str (flipProtocol "http://a.com/x"))) k
          = kvGet [("url", Val.str "http://a.com/x"), ("n", Val.int 7)] k) :=
  ⟨⟨by rfl, (claim_C9 "https://a.com/x" []).1 (by rfl)⟩,
    ⟨by rfl, (claim_C9 "http://a.com/x" []).2.1 (by rfl)⟩,
    ⟨by rfl,
      (claim_C9 "x" [("url", Val.str "http://a.com/x"), ("n", Val.int 7)]).2.2
        "http://a.com/x" (by rfl)⟩⟩

/-!
## Downloader.download (downloader.py lines 557-584)

`download` wraps up to two calls of the retry-decorated `_download`
(`prepare_request` + transport + metadata; the generic retry policy
`util.retry_decorator` is an external collaborator).  One full dispatch
attempt is an oracle `attempt i request kwargs` that either returns a
response or raises.  `download`'s own control flow is translated literally:
the attempt runs inside `try`; on the first failure the exception is
remembered and the request's scheme is flipped with
`convert_http_protocol` — executed inside the `except` handler, so an
exception it raises (a request without a string url) propagates out of
`download`; a second failure only logs.  A returned response carries
`graper_exception`: the first attempt's exception, or `None` when the
first attempt succeeded. -/

/-- Second loop iteration of `download` (the attempt after the scheme
flip): on success the response carries the remembered first exception `e`;
on failure the loop ends with `response = None` (the second failure is only
logged). -/
def Downloader.downloadSecond {R E : Type} (attempt : Nat → Val → KV → Except E R)
    (kwargs : KV) (e : E) (request2 : Val) : Except PyErr (Option R × Option E) :=
  match attempt 1 request2 kwargs with
  | Except.ok r => Except.ok (some r, some e)
  | Except.error _ => Except.ok (Option.none, some e)

/-- The `except` handler of `download`'s first iteration: remember the
exception, flip the request's scheme (an exception raised here — a request
without a string url — propagates out of `download`), then run the second
iteration. -/
def Downloader.downloadFallback {R E : Type} (attempt : Nat → Val → KV → Except E R)
    (request : Val) (kwargs : KV) (e : E) : Except PyErr (Option R × Option E) :=
  match Downloader.convert_http_protocol request with
  | Except.error pe => Except.error pe
  | Except.ok request2 => Downloader.downloadSecond attempt kwargs e request2

/-- `Downloader.download` over the dispatch oracle.  `Except.error` is an
exception escaping `download` itself (only `convert_http_protocol` inside
the handler can do that); otherwise `(response?, graper_exception)`, with
`response? = none` when both dispatch attempts failed. -/
def Downloader.download {R E : Type} (attempt : Nat → Val → KV → Except E R)
    (request : Val) (kwargs : KV) : Except PyErr (Option R × Option E) :=
  match attempt 0 request kwargs with
  | Except.ok r => Except.ok (some r, Option.none)
  | Except.error e => Downloader.downloadFallback attempt request kwargs e

/-- A Request per the data model: a bare URL string, or a dict whose `url`
field is a string. -/
def validRequest (request : Val) : Prop :=
  (∃ s, request = Val.str s) ∨
  (∃ d u, request = Val.dict d ∧ kvGet d "url" = some (Val.str u))

theorem convert_http_protocol_ok (request : Val) (h : validRequest request) :
    ∃ request2, Downloader.convert_http_protocol request = Except.ok request2 := by
  rcases h with ⟨s, rfl⟩ | ⟨d, u, rfl, hu⟩
  · exact ⟨_, rfl⟩
  · exact ⟨Val.dict (kvSet d "url" (Val.str (flipProtocol u))),
      by simp [Downloader.convert_http_protocol, hu]⟩

/-- Claim C4: for every valid request input (URL string or dict with a
string `url`), every set of keyword overrides, and every behavior of the
dispatch attempts, `download` returns normally — a response or `None` when
both attempts failed — and never propagates an exception. -/
theorem claim_C4 {R E : Type} (attempt : Nat → Val → KV → Except E R)
    (request : Val) (kwargs : KV) (h : validRequest request) :
    ∃ out : Option R × Option E,
      Downloader.download attempt request kwargs = Except.ok out := by
  obtain ⟨request2, hconv⟩ := convert_http_protocol_ok request h
  unfold Downloader.download
  cases attempt 0 request kwargs with
  | ok r => exact ⟨(some r, Option.none), rfl⟩
  | error e =>
    show ∃ out, Downloader.downloadFallback attempt request kwargs e = Except.ok out
    unfold Downloader.downloadFallback
    rw [hconv]
    show ∃ out, Downloader.downloadSecond attempt kwargs e request2 = Except.ok out
    unfold Downloader.downloadSecond
    cases attempt 1 request2 kwargs with
    | ok r => exact ⟨(some r, some e), rfl⟩
    | error e2 => exact ⟨(Option.none, some e), rfl⟩

theorem claim_C4_witness :
    validRequest (Val.str "http://a.com/x") ∧
    ∃ out : Option Unit × Option String,
      Downloader.download (fun _ _ _ => Except.error "boom")
        (Val.str "http://a.com/x") [] = Except.ok out :=
  ⟨Or.inl ⟨_, rfl⟩,
    claim_C4 (fun _ _ _ => Except.error "boom") (Val.str "http://a.com/x") []
      (Or.inl ⟨_, rfl⟩)⟩

/-- Claim C5: `download` makes at most two dispatch attempts (its result
depends only on `attempt 0` and `attempt 1`); after a first-attempt
failure it flips the request's URL scheme exactly once — the second
attempt runs on `convert_http_protocol request` — and when the second
attempt succeeds the response is annotated with the first attempt's
exception; when the first attempt succeeds directly the annotation is
`None`. -/
theorem claim_C5 {R E : Type} (attempt attempt2 : Nat → Val → KV → Except E R)
    (request request2 : Val) (kwargs : KV) (r : R) (e e2 : E) :
    (attempt 0 request kwargs = Except.ok r →
      Downloader.download attempt request kwargs
        = Except.ok (some r, Option.none)) ∧
    (attempt 0 request kwargs = Except.error e →
      Downloader.convert_http_protocol request = Except.ok request2 →
      attempt 1 request2 kwargs = Except.ok r →
      Downloader.download attempt request kwargs = Except.ok (some r, some e)) ∧
    (attempt 0 request kwargs = Except.error e →
      Downloader.convert_http_protocol request = Except.ok request2 →
      attempt 1 request2 kwargs = Except.error e2 →
      Downloader.download attempt request kwargs
        = Except.ok (Option.none, some e)) ∧
    ((∀ v kv, attempt2 0 v kv = attempt 0 v kv) →
      (∀ v kv, attempt2 1 v kv = attempt 1 v kv) →
      Downloader.download attempt2 request kwargs
        = Downloader.download attempt request kwargs) := by
  refine ⟨?_, ?_, ?_, ?_⟩
  · intro h0
    unfold Downloader.download
    rw [h0]
  · intro h0 hc h1
    unfold Downloader.download
    rw [h0]
    show Downloader.downloadFallback attempt request kwargs e = _
    unfold Downloader.downloadFallback
    rw [hc]
    show Downloader.downloadSecond attempt kwargs e request2 = _
    unfold Downloader.downloadSecond
    rw [h1]
  · intro h0 hc h1
    unfold Downloader.download
    rw [h0]
    show Downloader.downloadFallback attempt request kwargs e = _
    unfold Downloader.downloadFallback
    rw [hc]
    show Downloader.downloadSecond attempt kwargs e request2 = _
    unfold Downloader.downloadSecond
    rw [h1]
  · intro ha hb
    unfold Downloader.download
    rw [ha]
    cases h0 : attempt 0 request kwargs with
    | ok r => rfl
    | error e =>
      show Downloader.downloadFallback attempt2 request kwargs e
        = Downloader.downloadFallback attempt request kwargs e
      unfold Downloader.downloadFallback
      cases hc : Downloader.convert_http_protocol request with
      | error pe => rfl
      | ok request2 =>
        show Downloader.downloadSecond attempt2 kwargs e request2
          = Downloader.downloadSecond attempt kwargs e request2
        unfold Downloader.downloadSecond
        rw [hb]

theorem claim_C5_witness :
    ((fun (i : Nat) (_ : Val) (_ : KV) =>
        if i = 0 then (Except.error "e1" : Except String Nat) else Except.ok 42)
          0 (Val.str "http://a") [] = Except.error "e1" ∧
      Downloader.convert_http_protocol (Val.str "http://a")
        = Except.ok (Val.str ("https" ++ pyDrop "http://a" 4)) ∧
      (fun (i : Nat) (_ : Val) (_ : KV) =>
        if i = 0 then (Except.error "e1" : Except String Nat) else Except.ok 42)
          1 (Val.str ("https" ++ pyDrop "http://a" 4)) [] = Except.ok 42) ∧
    Downloader.download
      (fun (i : Nat) (_ : Val) (_ : KV) =>
        if i = 0 then (Except.error "e1" : Except String Nat) else Except.ok 42)
      (Val.str "http://a") [] = Except.ok (some 42, some "e1") :=
  ⟨⟨rfl, rfl, rfl⟩,
    (claim_C5
      (fun (i : Nat) (_ : Val) (_ : KV) =>
        if i = 0 then (Except.error "e1" : Except String Nat) else Except.ok 42)
      (fun (i : Nat) (_ : Val) (_ : KV) =>
        if i = 0 then (Except.error "e1" : Except String Nat) else Except.ok 42)
      (Val.str "http://a") (Val.str ("https" ++ pyDrop "http://a" 4))
      [] 42 "e1" "e1").2.1 rfl rfl rfl⟩

/-!
## Downloader.prepare_request (downloader.py lines 396-473)

The builder is translated step by step in source order; each step is a
named function so that the data flow of the Python locals is explicit.
Pool `get()` results and `util.format_headers` (external collaborators) are
oracle fields of the configuration.  Exceptions carry the Python message.
-/

/-- Downloader state consumed by `prepare_request`, with the per-call
results of its collaborators as oracle values. -/
structure DownloaderCfg where
  proxy_enable : Bool
  timeout : Val
  stream : Bool
  use_default_headers : Bool
  format_headers : Bool
  has_cookie_pool : Bool
  cookie_pool_get : Val
  has_referer_pool : Bool
  referer_pool_get : Val
  proxy_pool_get : Val
  default_headers : KV
  fmt_headers : KV → KV
  session_cookie_header : String

/-- Lines 406-409: a dict request's fields are merged over the keyword
arguments (`kwargs.update(request)`), so the record's values win. -/
def mergedOptions (request : Val) (kwargs : KV) : KV :=
  match request with
  | Val.dict d => kvUpdate kwargs d
  | _ => kwargs

/-- Lines 406-408: the url — the request itself, or its `url` field. -/
def requestUrl (request : Val) : Val :=
  match request with
  | Val.dict d => (kvGet d "url").getD Val.none
  | v => v

/-- Python `method == "GET"` on the resolved method value. -/
def isGETMethod : Val → Bool
  | Val.str m => m == "GET"
  | _ => false

/-- Line 415: the default headers, or `{}` when disabled. -/
def defaultHeadersBase (cfg : DownloaderCfg) : KV :=
  if cfg.use_default_headers then cfg.default_headers else []

/-- Lines 417-425: the cookie-pool step.  A truthy dict cookie becomes the
jar `_cookies`; any other truthy cookie goes into the `Cookie` header. -/
def cookiePoolHeaders (cfg : DownloaderCfg) : KV × KV :=
  if cfg.has_cookie_pool then
    if cfg.cookie_pool_get.truthy then
      match cfg.cookie_pool_get with
      | Val.dict j => (defaultHeadersBase cfg, j)
      | v => (kvSet (defaultHeadersBase cfg) "Cookie" v, [])
    else (defaultHeadersBase cfg, [])
  else (defaultHeadersBase cfg, [])

/-- Lines 427-430: the referer-pool step, setting `Referer`
unconditionally when a referer pool is configured. -/
def refererHeaders (cfg : DownloaderCfg) : KV :=
  if cfg.has_referer_pool then
    kvSet (cookiePoolHeaders cfg).1 "Referer" cfg.referer_pool_get
  else (cookiePoolHeaders cfg).1

/-- Lines 433-435: overlay the caller's `headers` option when truthy (a
truthy non-dict value raises on `dict.update`). -/
def callerHeadersMerged (cfg : DownloaderCfg) (kwargs : KV) :
    Except String KV :=
  let hv : Val := (kvGet kwargs "headers").getD (Val.dict [])
  if hv.truthy then
    match hv with
    | Val.dict h => Except.ok (kvUpdate (refererHeaders cfg) h)
    | _ => Except.error "TypeError: headers is not a mapping"
  else Except.ok (refererHeaders cfg)

def prepareHeaders (cfg : DownloaderCfg) (kwargs : KV) :
    Except String (KV × KV) :=
  match callerHeadersMerged cfg kwargs with
  | Except.error m => Except.error m
  | Except.ok dh3 =>
    Except.ok (kvSet (kvPop kwargs "headers") "headers"
      (Val.dict (if cfg.format_headers then cfg.fmt_headers dh3 else dh3)),
      (cookiePoolHeaders cfg).2)

/-- Lines 443-444: default `verify` to `False` when not supplied. -/
def prepareVerify (kwargs : KV) : KV :=
  if kvHas kwargs "verify" then kwargs
  else kvSet kwargs "verify" (Val.bool false)

/-- Lines 446-450: when no explicit `proxies` and proxying is enabled,
fetch one from the proxy pool and fail with `no valid proxy` if the pool
yields a falsy value. -/
def prepareProxies (cfg : DownloaderCfg) (kwargs : KV) : Except String KV :=
  if kvHas kwargs "proxies" then Except.ok kwargs
  else if cfg.proxy_enable then
    if cfg.proxy_pool_get.truthy then
      Except.ok (kvSet kwargs "proxies" cfg.proxy_pool_get)
    else Except.error "no valid proxy"
  else Except.ok kwargs

/-- Lines 451-454: default `stream` and `timeout` from the Downloader
configuration when not supplied. -/
def prepareDefaults (cfg : DownloaderCfg) (kwargs : KV) : KV :=
  let k1 := if kvHas kwargs "stream" then kwargs
    else kvSet kwargs "stream" (Val.bool cfg.stream)
  if kvHas k1 "timeout" then k1 else kvSet k1 "timeout" cfg.timeout

/-- Python `x.split("=", 1)` on one cookie segment; a segment without `=`
makes the later `dict(...)` raise `ValueError`. -/
def parseCookiePair (x : String) : Except String (String × String) :=
  match x.splitOn "=" with
  | [] => Except.error "ValueError: bad cookie segment"
  | [_] => Except.error "ValueError: bad cookie segment"
  | k :: rest => Except.ok (k, String.intercalate "=" rest)

/-- One step of building the cookie dict: blank segments (after `strip`)
are skipped, others are split at the first `=`. -/
def parseCookieStep (acc : Except String KV) (x : String) : Except String KV :=
  if x.trim = "" then acc
  else
    match acc with
    | Except.error m => Except.error m
    | Except.ok kv =>
      match parseCookiePair x with
      | Except.error m => Except.error m
      | Except.ok p => Except.ok (kvSet kv p.1 (Val.str p.2))

/-- Lines 463-465: `dict([x.split("=", 1) for x in cookies_str.split(";")
if x.strip()])`, later pairs overwriting earlier ones. -/
def parseCookieString (s : String) : Except String KV :=
  (s.splitOn ";").foldl parseCookieStep (Except.ok [])

/-- Line 461: `kwargs["headers"].get("Cookie", "")` — within
`prepare_request` the `headers` entry is always the dict built by the
headers step; a non-string `Cookie` value raises on the later string
concatenation. -/
def cookieHeaderString (kwargs : KV) : Except String String :=
  match kvGet kwargs "headers" with
  | some (Val.dict h) =>
    match kvGet h "Cookie" with
    | some (Val.str s) => Except.ok s
    | Option.none => Except.ok ""
    | some _ => Except.error "TypeError: Cookie header is not a string"
  | _ => Except.ok ""

/-- Lines 462-466: join the built `Cookie` header with the session's
persisted one, parse, and overlay the cookie-pool jar. -/
def prepareCookiesTail (cfg : DownloaderCfg) (jar : KV) (kwargs : KV)
    (headerCookie : String) : Except String KV :=
  match parseCookieString
    (headerCookie ++ ";" ++ cfg.session_cookie_header) with
  | Except.error m => Except.error m
  | Except.ok parsed =>
    Except.ok (kvSet kwargs "cookies" (Val.dict (kvUpdate parsed jar)))

/-- Lines 460-466: when no explicit `cookies`, synthesize the cookie
mapping. -/
def prepareCookies (cfg : DownloaderCfg) (jar : KV) (kwargs : KV) :
    Except String KV :=
  if kvHas kwargs "cookies" then Except.ok kwargs
  else
    match cookieHeaderString kwargs with
    | Except.error m => Except.error m
    | Except.ok headerCookie => prepareCookiesTail cfg jar kwargs headerCookie

/-- Lines 467-473: method promotion (a body present and method still GET
becomes POST) and removal of `url`/`method` from the kwargs; assembles the
returned tuple. -/
def prepareFinish (method0 url session : Val) (kwargs6 : KV) :
    Val × Val × Val × KV :=
  (session,
    (if (kvHas kwargs6 "data" || kvHas kwargs6 "json") && isGETMethod method0
      then Val.str "POST" else method0),
    url, kvPop (kvPop kwargs6 "url") "method")

/-- Lines 451-473 (after the proxies step): `stream`/`timeout` defaults,
session pop, cookie synthesis, then the finishing step. -/
def prepareAfterProxies (cfg : DownloaderCfg) (jar : KV) (method0 url : Val)
    (kwargs3 : KV) : Except String (Val × Val × Val × KV) :=
  let kwargs4 := prepareDefaults cfg kwargs3
  let session := (kvGet kwargs4 "session").getD Val.none
  match prepareCookies cfg jar (kvPop kwargs4 "session") with
  | Except.error m => Except.error m
  | Except.ok kwargs6 => Except.ok (prepareFinish method0 url session kwargs6)

/-- Lines 443-473 (after the headers step): `verify` default, proxies
resolution, then the rest. -/
def prepareAfterHeaders (cfg : DownloaderCfg) (jar : KV) (method0 url : Val)
    (kwargs1 : KV) : Except String (Val × Val × Val × KV) :=
  match prepareProxies cfg (prepareVerify kwargs1) with
  | Except.error m => Except.error m
  | Except.ok kwargs3 => prepareAfterProxies cfg jar method0 url kwargs3

/-- `Downloader.prepare_request` (lines 396-473): the steps above in
source order.  Returns `(_session, method, url, kwargs)`. -/
def Downloader.prepare_request (cfg : DownloaderCfg) (request : Val)
    (kwargs0 : KV) : Except String (Val × Val × Val × KV) :=
  let url := requestUrl request
  let kwargs := mergedOptions request kwargs0
  let method0 := (kvGet kwargs "method").getD (Val.str "GET")
  match prepareHeaders cfg kwargs with
  | Except.error m => Except.error m
  | Except.ok hj => prepareAfterHeaders cfg hj.2 method0 url hj.1

/-- Which client executes the request in `_download_by_httpx`. -/
inductive SessionChoice where
  | fresh : SessionChoice
  | override : SessionChoice
  | shared : SessionChoice
  | bareModule : SessionChoice
  deriving DecidableEq

/-- Session selection in `Downloader._download_by_httpx` (lines 487-499):
`proxies` (default `None`), `verify` (no default — a missing key raises
`KeyError`) and `cert` (default `None`) are popped; a fresh independent
client is created when `proxies or verify is not None or cert is not
None`; otherwise the per-call session override is used when not `None`,
else the shared session (`httpx` module itself when `use_session` is
false). -/
def Downloader.download_by_httpx_session (use_session : Bool) (session : Val)
    (kwargs : KV) : Except String SessionChoice :=
  let proxies := (kvGet kwargs "proxies").getD Val.none
  match kvGet kwargs "verify" with
  | Option.none => Except.error "KeyError: verify"
  | some verify =>
    let cert := (kvGet kwargs "cert").getD Val.none
    if proxies.truthy || !verify.isNone || !cert.isNone then
      Except.ok SessionChoice.fresh
    else if !session.isNone then Except.ok SessionChoice.override
    else if use_session then Except.ok SessionChoice.shared
    else Except.ok SessionChoice.bareModule

theorem parseCookiePair_error (x m : String)
    (h : parseCookiePair x = Except.error m) :
    m = "ValueError: bad cookie segment" := by
  unfold parseCookiePair at h
  split at h
  · cases h
    rfl
  · cases h
    rfl
  · cases h

theorem parseCookieStep_error (acc : Except String KV) (x m : String)
    (h : parseCookieStep acc x = Except.error m) :
    acc = Except.error m ∨ m = "ValueError: bad cookie segment" := by
  unfold parseCookieStep at h
  split at h
  · exact Or.inl h
  · cases acc with
    | error m' =>
      cases h
      exact Or.inl rfl
    | ok kv =>
      cases hp : parseCookiePair x with
      | error mp =>
        rw [hp] at h
        have hmp : mp = m := by injection h
        subst hmp
        exact Or.inr (parseCookiePair_error x mp hp)
      | ok p =>
        rw [hp] at h
        cases h

theorem foldl_parseCookieStep_error (xs : List String) (acc : Except String KV)
    (m : String) (h : xs.foldl parseCookieStep acc = Except.error m) :
    acc = Except.error m ∨ m = "ValueError: bad cookie segment" := by
  induction xs generalizing acc with
  | nil => exact Or.inl h
  | cons x xs ih =>
    simp only [List.foldl_cons] at h
    rcases ih (parseCookieStep acc x) h with h1 | h1
    · exact parseCookieStep_error acc x m h1
    · exact Or.inr h1

theorem parseCookieString_error_msg (s m : String)
    (h : parseCookieString s = Except.error m) :
    m = "ValueError: bad cookie segment" := by
  unfold parseCookieString at h
  rcases foldl_parseCookieStep_error _ _ _ h with h1 | h1
  · cases h1
  · exact h1

theorem cookieHeaderString_error (kwargs : KV) (m : String)
    (h : cookieHeaderString kwargs = Except.error m) :
    m = "TypeError: Cookie header is not a string" := by
  unfold cookieHeaderString at h
  split at h
  · split at h
    · cases h
    · cases h
    · cases h
      rfl
  · cases h

theorem prepareCookies_error_ne (cfg : DownloaderCfg) (jar kwargs : KV)
    (m : String) (h : prepareCookies cfg jar kwargs = Except.error m) :
    m ≠ "no valid proxy" := by
  unfold prepareCookies at h
  by_cases hc : kvHas kwargs "cookies" = true
  · rw [if_pos hc] at h
    cases h
  · rw [if_neg hc] at h
    cases hE : cookieHeaderString kwargs with
    | error mE =>
      rw [hE] at h
      have hEm : mE = m := by injection h
      subst hEm
      have hmsg := cookieHeaderString_error kwargs mE hE
      subst hmsg
      decide
    | ok headerCookie =>
      rw [hE] at h
      have h2 : prepareCookiesTail cfg jar kwargs headerCookie
          = Except.error m := h
      unfold prepareCookiesTail at h2
      cases hP : parseCookieString
          (headerCookie ++ ";" ++ cfg.session_cookie_header) with
      | error mP =>
        rw [hP] at h2
        have hPm : mP = m := by injection h2
        subst hPm
        have hmsg := parseCookieString_error_msg _ mP hP
        subst hmsg
        decide
      | ok parsed =>
        rw [hP] at h2
        cases h2

theorem kvGet_prepareVerify_ne (kwargs : KV) (k : String) (h : k ≠ "verify") :
    kvGet (prepareVerify kwargs) k = kvGet kwargs k := by
  unfold prepareVerify
  by_cases hhas : kvHas kwargs "verify" = true
  · rw [if_pos hhas]
  · rw [if_neg hhas]
    exact kvGet_kvSet_ne kwargs k "verify" (Val.bool false) h

theorem kvGet_prepareVerify_absent (kwargs : KV)
    (h : kvGet kwargs "verify" = Option.none) :
    kvGet (prepareVerify kwargs) "verify" = some (Val.bool false) := by
  unfold prepareVerify
  have hhas : ¬kvHas kwargs "verify" = true := by
    simp [kvHas, h]
  rw [if_neg hhas]
  exact kvGet_kvSet_self kwargs "verify" (Val.bool false)

theorem prepareVerify_preserves (kwargs : KV) (k : String) (v : Val)
    (h : kvGet kwargs k = some v) :
    kvGet (prepareVerify kwargs) k = some v := by
  by_cases hk : k = "verify"
  · subst hk
    unfold prepareVerify
    have hhas : kvHas kwargs "verify" = true := by
      simp [kvHas, h]
    rw [if_pos hhas]
    exact h
  · rw [kvGet_prepareVerify_ne kwargs k hk]
    exact h

theorem prepareProxies_ok_preserves (cfg : DownloaderCfg) (kwargs kwargs' : KV)
    (k : String) (v : Val) (hv : kvGet kwargs k = some v)
    (h : prepareProxies cfg kwargs = Except.ok kwargs') :
    kvGet kwargs' k = some v := by
  unfold prepareProxies at h
  by_cases hhas : kvHas kwargs "proxies" = true
  · rw [if_pos hhas] at h
    cases h
    exact hv
  · rw [if_neg hhas] at h
    by_cases hen : cfg.proxy_enable = true
    · rw [if_pos hen] at h
      by_cases htr : cfg.proxy_pool_get.truthy = true
      · rw [if_pos htr] at h
        cases h
        by_cases hk : k = "proxies"
        · subst hk
          simp [kvHas, hv] at hhas
        · rw [kvGet_kvSet_ne kwargs k "proxies" cfg.proxy_pool_get hk]
          exact hv
      · rw [if_neg htr] at h
        cases h
    · rw [if_neg hen] at h
      cases h
      exact hv

theorem prepareProxies_error_iff (cfg : DownloaderCfg) (kwargs : KV) :
    prepareProxies cfg kwargs = Except.error "no valid proxy" ↔
      kvHas kwargs "proxies" = false ∧ cfg.proxy_enable = true ∧
        cfg.proxy_pool_get.truthy = false := by
  unfold prepareProxies
  by_cases hhas : kvHas kwargs "proxies" = true
  · rw [if_pos hhas]
    simp [hhas]
  · rw [if_neg hhas]
    by_cases hen : cfg.proxy_enable = true
    · rw [if_pos hen]
      by_cases htr : cfg.proxy_pool_get.truthy = true
      · rw [if_pos htr]
        simp [htr]
      · rw [if_neg htr]
        simp [hen, Bool.eq_false_iff.mpr hhas, Bool.eq_false_iff.mpr htr]
    · rw [if_neg hen]
      simp [hen]

theorem prepareDefaults_preserves (cfg : DownloaderCfg) (kwargs : KV)
    (k : String) (v : Val) (h : kvGet kwargs k = some v) :
    kvGet (prepareDefaults cfg kwargs) k = some v := by
  unfold prepareDefaults
  have hstep : ∀ (kw : KV) (key : String) (dv : Val), kvGet kw k = some v →
      kvGet (if kvHas kw key then kw else kvSet kw key dv) k = some v := by
    intro kw key dv hkw
    by_cases hhas : kvHas kw key = true
    · rw [if_pos hhas]
      exact hkw
    · rw [if_neg hhas]
      by_cases hk : k = key
      · subst hk
        simp [kvHas, hkw] at hhas
      · rw [kvGet_kvSet_ne kw k key dv hk]
        exact hkw
  exact hstep _ "timeout" cfg.timeout (hstep kwargs "stream" (Val.bool cfg.stream) h)

theorem prepareCookies_ok_preserves (cfg : DownloaderCfg) (jar kwargs kwargs' : KV)
    (k : String) (v : Val) (hv : kvGet kwargs k = some v)
    (h : prepareCookies cfg jar kwargs = Except.ok kwargs') :
    kvGet kwargs' k = some v := by
  unfold prepareCookies at h
  by_cases hhas : kvHas kwargs "cookies" = true
  · rw [if_pos hhas] at h
    cases h
    exact hv
  · rw [if_neg hhas] at h
    cases hE : cookieHeaderString kwargs with
    | error mE =>
      rw [hE] at h
      cases h
    | ok headerCookie =>
      rw [hE] at h
      have h2 : prepareCookiesTail cfg jar kwargs headerCookie
          = Except.ok kwargs' := h
      unfold prepareCookiesTail at h2
      cases hP : parseCookieString
          (headerCookie ++ ";" ++ cfg.session_cookie_header) with
      | error mP =>
        rw [hP] at h2
        cases h2
      | ok parsed =>
        rw [hP] at h2
        cases h2
        by_cases hk : k = "cookies"
        · subst hk
          simp [kvHas, hv] at hhas
        · rw [kvGet_kvSet_ne _ _ _ _ hk]
          exact hv

/-- The `headers` option of a call is well formed: when present and
truthy, it is a dict (Python's `dict.update` would raise otherwise). -/
def wfHeadersOption (kwargs : KV) : Prop :=
  ∀ h : Val, kvGet kwargs "headers" = some h → h.truthy = true →
    ∃ hd : KV, h = Val.dict hd

theorem callerHeadersMerged_isOk (cfg : DownloaderCfg) (kwargs : KV)
    (hwf : wfHeadersOption kwargs) :
    ∃ dh3, callerHeadersMerged cfg kwargs = Except.ok dh3 := by
  unfold callerHeadersMerged
  cases hh : kvGet kwargs "headers" with
  | none => exact ⟨refererHeaders cfg, rfl⟩
  | some hv =>
    cases htr : hv.truthy with
    | false =>
      refine ⟨refererHeaders cfg, ?_⟩
      simp only [Option.getD_some]
      rw [htr]
      rfl
    | true =>
      obtain ⟨hd, rfl⟩ := hwf hv hh htr
      refine ⟨kvUpdate (refererHeaders cfg) hd, ?_⟩
      simp only [Option.getD_some]
      rw [htr]
      rfl

theorem prepareHeaders_isOk (cfg : DownloaderCfg) (kwargs : KV)
    (hwf : wfHeadersOption kwargs) :
    ∃ out, prepareHeaders cfg kwargs = Except.ok out := by
  obtain ⟨dh3, hd⟩ := callerHeadersMerged_isOk cfg kwargs hwf
  refine ⟨(kvSet (kvPop kwargs "headers") "headers"
    (Val.dict (if cfg.format_headers then cfg.fmt_headers dh3 else dh3)),
    (cookiePoolHeaders cfg).2), ?_⟩
  unfold prepareHeaders
  rw [hd]

theorem prepareHeaders_shape (cfg : DownloaderCfg) (kwargs : KV) (out : KV × KV)
    (h : prepareHeaders cfg kwargs = Except.ok out) :
    ∃ dh : KV, out.1 = kvSet (kvPop kwargs "headers") "headers" (Val.dict dh) := by
  unfold prepareHeaders at h
  cases hd : callerHeadersMerged cfg kwargs with
  | error m =>
    rw [hd] at h
    cases h
  | ok dh3 =>
    rw [hd] at h
    have h' : Except.ok ((kvSet (kvPop kwargs "headers") "headers"
        (Val.dict (if cfg.format_headers then cfg.fmt_headers dh3 else dh3)),
        (cookiePoolHeaders cfg).2) : KV × KV) = Except.ok out := h
    obtain rfl : _ = out := by injection h'
    exact ⟨_, rfl⟩

theorem prepareAfterProxies_error_ne (cfg : DownloaderCfg) (jar : KV)
    (m0 url : Val) (kwargs3 : KV) (m : String)
    (h : prepareAfterProxies cfg jar m0 url kwargs3 = Except.error m) :
    m ≠ "no valid proxy" := by
  simp only [prepareAfterProxies] at h
  cases hc : prepareCookies cfg jar
      (kvPop (prepareDefaults cfg kwargs3) "session") with
  | error m' =>
    rw [hc] at h
    have hm : m' = m := by injection h
    subst hm
    exact prepareCookies_error_ne _ _ _ _ hc
  | ok kwargs6 =>
    rw [hc] at h
    cases h

theorem prepareAfterHeaders_ok_preserves (cfg : DownloaderCfg) (jar : KV)
    (m0 url : Val) (kwargs1 : KV) (out : Val × Val × Val × KV)
    (k : String) (v : Val)
    (h1 : k ≠ "session") (h2 : k ≠ "url") (h3 : k ≠ "method")
    (hv : kvGet (prepareVerify kwargs1) k = some v)
    (h : prepareAfterHeaders cfg jar m0 url kwargs1 = Except.ok out) :
    kvGet out.2.2.2 k = some v := by
  unfold prepareAfterHeaders at h
  cases hpp : prepareProxies cfg (prepareVerify kwargs1) with
  | error m' =>
    rw [hpp] at h
    cases h
  | ok kwargs3 =>
    rw [hpp] at h
    have h' : prepareAfterProxies cfg jar m0 url kwargs3 = Except.ok out := h
    simp only [prepareAfterProxies] at h'
    have hv3 : kvGet kwargs3 k = some v :=
      prepareProxies_ok_preserves cfg _ kwargs3 k v hv hpp
    have hv5 : kvGet (kvPop (prepareDefaults cfg kwargs3) "session") k = some v := by
      rw [kvGet_kvPop_ne _ _ _ h1]
      exact prepareDefaults_preserves cfg kwargs3 k v hv3
    cases hpc : prepareCookies cfg jar
        (kvPop (prepareDefaults cfg kwargs3) "session") with
    | error m' =>
      rw [hpc] at h'
      cases h'
    | ok kwargs6 =>
      rw [hpc] at h'
      have hv6 : kvGet kwargs6 k = some v :=
        prepareCookies_ok_preserves cfg jar _ kwargs6 k v hv5 hpc
      have h'' : Except.ok (prepareFinish m0 url
          ((kvGet (prepareDefaults cfg kwargs3) "session").getD Val.none) kwargs6)
          = Except.ok out := h'
      obtain rfl : prepareFinish m0 url
          ((kvGet (prepareDefaults cfg kwargs3) "session").getD Val.none) kwargs6
          = out := by injection h''
      show kvGet (kvPop (kvPop kwargs6 "url") "method") k = some v
      rw [kvGet_kvPop_ne _ _ _ h3, kvGet_kvPop_ne _ _ _ h2]
      exact hv6

theorem prepare_request_ok_preserves (cfg : DownloaderCfg) (request : Val)
    (kwargs0 : KV) (out : Val × Val × Val × KV) (k : String) (v : Val)
    (h1 : k ≠ "session") (h2 : k ≠ "url") (h3 : k ≠ "method") (h4 : k ≠ "headers")
    (hv : kvGet (mergedOptions request kwargs0) k = some v)
    (h : Downloader.prepare_request cfg request kwargs0 = Except.ok out) :
    kvGet out.2.2.2 k = some v := by
  simp only [Downloader.prepare_request] at h
  cases hH : prepareHeaders cfg (mergedOptions request kwargs0) with
  | error m =>
    rw [hH] at h
    cases h
  | ok hj =>
    rw [hH] at h
    have h' : prepareAfterHeaders cfg hj.2
        ((kvGet (mergedOptions request kwargs0) "method").getD (Val.str "GET"))
        (requestUrl request) hj.1 = Except.ok out := h
    obtain ⟨dh, hshape⟩ := prepareHeaders_shape cfg _ hj hH
    have hj1 : kvGet hj.1 k = some v := by
      rw [hshape, kvGet_kvSet_ne _ _ _ _ h4, kvGet_kvPop_ne _ _ _ h4]
      exact hv
    exact prepareAfterHeaders_ok_preserves cfg hj.2 _ _ hj.1 out k v h1 h2 h3
      (prepareVerify_preserves hj.1 k v hj1) h'

theorem prepare_request_verify_default (cfg : DownloaderCfg) (request : Val)
    (kwargs0 : KV) (out : Val × Val × Val × KV)
    (hnone : kvGet (mergedOptions request kwargs0) "verify" = Option.none)
    (h : Downloader.prepare_request cfg request kwargs0 = Except.ok out) :
    kvGet out.2.2.2 "verify" = some (Val.bool false) := by
  simp only [Downloader.prepare_request] at h
  cases hH : prepareHeaders cfg (mergedOptions request kwargs0) with
  | error m =>
    rw [hH] at h
    cases h
  | ok hj =>
    rw [hH] at h
    have h' : prepareAfterHeaders cfg hj.2
        ((kvGet (mergedOptions request kwargs0) "method").getD (Val.str "GET"))
        (requestUrl request) hj.1 = Except.ok out := h
    obtain ⟨dh, hshape⟩ := prepareHeaders_shape cfg _ hj hH
    have hrv : kvGet hj.1 "verify" = Option.none := by
      rw [hshape, kvGet_kvSet_ne _ _ _ _ (by decide), kvGet_kvPop_ne _ _ _ (by decide)]
      exact hnone
    exact prepareAfterHeaders_ok_preserves cfg hj.2 _ _ hj.1 out "verify"
      (Val.bool false) (by decide) (by decide) (by decide)
      (kvGet_prepareVerify_absent hj.1 hrv) h'

/-- Claim C7: `prepare_request` raises the `no valid proxy` error exactly
when proxy usage is enabled, the caller supplied no explicit `proxies`
option (neither in the structured request nor as a keyword — the merged
options have no `proxies` key) and the proxy pool returned a falsy value;
when explicit proxies are supplied the proxy pool is not consulted (the
result does not depend on the pool's answer) and the error is never
raised.  The `headers` option, when present and truthy, is assumed to be a
dict: a malformed one makes Python raise a different error before the
proxy step. -/
theorem claim_C7 (cfg : DownloaderCfg) (request : Val) (kwargs0 : KV)
    (hwf : wfHeadersOption (mergedOptions request kwargs0)) :
    (Downloader.prepare_request cfg request kwargs0
        = Except.error "no valid proxy" ↔
      cfg.proxy_enable = true ∧
      kvGet (mergedOptions request kwargs0) "proxies" = Option.none ∧
      cfg.proxy_pool_get.truthy = false) ∧
    (∀ p : Val, kvGet (mergedOptions request kwargs0) "proxies" = some p →
      ∀ g : Val,
        Downloader.prepare_request
          (DownloaderCfg.mk cfg.proxy_enable cfg.timeout cfg.stream
            cfg.use_default_headers cfg.format_headers cfg.has_cookie_pool
            cfg.cookie_pool_get cfg.has_referer_pool cfg.referer_pool_get g
            cfg.default_headers cfg.fmt_headers cfg.session_cookie_header)
          request kwargs0
        = Downloader.prepare_request cfg request kwargs0) := by
  constructor
  · obtain ⟨hj, hH⟩ := prepareHeaders_isOk cfg (mergedOptions request kwargs0) hwf
    obtain ⟨dh, hshape⟩ := prepareHeaders_shape cfg _ hj hH
    have heq : Downloader.prepare_request cfg request kwargs0
        = prepareAfterHeaders cfg hj.2
            ((kvGet (mergedOptions request kwargs0) "method").getD (Val.str "GET"))
            (requestUrl request) hj.1 := by
      simp only [Downloader.prepare_request]
      rw [hH]
    have hlook : kvGet (prepareVerify hj.1) "proxies"
        = kvGet (mergedOptions request kwargs0) "proxies" := by
      rw [kvGet_prepareVerify_ne _ _ (by decide), hshape,
        kvGet_kvSet_ne _ _ _ _ (by decide), kvGet_kvPop_ne _ _ _ (by decide)]
    rw [heq]
    unfold prepareAfterHeaders
    constructor
    · intro herr
      cases hpp : prepareProxies cfg (prepareVerify hj.1) with
      | error m' =>
        rw [hpp] at herr
        have hm : m' = "no valid proxy" := by injection herr
        subst hm
        obtain ⟨hhas, hen, htr⟩ := (prepareProxies_error_iff cfg _).mp hpp
        refine ⟨hen, ?_, htr⟩
        rw [← hlook]
        simp only [kvHas] at hhas
        cases hval : kvGet (prepareVerify hj.1) "proxies" with
        | none => rfl
        | some q =>
          rw [hval] at hhas
          simp at hhas
      | ok kwargs3 =>
        rw [hpp] at herr
        have herr' : prepareAfterProxies cfg hj.2
            ((kvGet (mergedOptions request kwargs0) "method").getD (Val.str "GET"))
            (requestUrl request) kwargs3 = Except.error "no valid proxy" := herr
        exact absurd rfl (prepareAfterProxies_error_ne _ _ _ _ _ _ herr')
    · rintro ⟨hen, hnone, htr⟩
      have hhas : kvHas (prepareVerify hj.1) "proxies" = false := by
        simp [kvHas, hlook, hnone]
      have hpp : prepareProxies cfg (prepareVerify hj.1)
          = Except.error "no valid proxy" :=
        (prepareProxies_error_iff cfg _).mpr ⟨hhas, hen, htr⟩
      rw [hpp]
  · intro p hp g
    have hH2 : prepareHeaders
        (DownloaderCfg.mk cfg.proxy_enable cfg.timeout cfg.stream
          cfg.use_default_headers cfg.format_headers cfg.has_cookie_pool
          cfg.cookie_pool_get cfg.has_referer_pool cfg.referer_pool_get g
          cfg.default_headers cfg.fmt_headers cfg.session_cookie_header)
        (mergedOptions request kwargs0)
        = prepareHeaders cfg (mergedOptions request kwargs0) := rfl
    simp only [Downloader.prepare_request]
    rw [hH2]
    cases hres : prepareHeaders cfg (mergedOptions request kwargs0) with
    | error m => rfl
    | ok hj =>
      show prepareAfterHeaders
          (DownloaderCfg.mk cfg.proxy_enable cfg.timeout cfg.stream
            cfg.use_default_headers cfg.format_headers cfg.has_cookie_pool
            cfg.cookie_pool_get cfg.has_referer_pool cfg.referer_pool_get g
            cfg.default_headers cfg.fmt_headers cfg.session_cookie_header)
          hj.2 ((kvGet (mergedOptions request kwargs0) "method").getD (Val.str "GET"))
          (requestUrl request) hj.1
        = prepareAfterHeaders cfg hj.2
          ((kvGet (mergedOptions request kwargs0) "method").getD (Val.str "GET"))
          (requestUrl request) hj.1
      obtain ⟨dh, hshape⟩ := prepareHeaders_shape cfg _ hj hres
      have hpv : kvGet (prepareVerify hj.1) "proxies" = some p := by
        rw [kvGet_prepareVerify_ne _ _ (by decide), hshape,
          kvGet_kvSet_ne _ _ _ _ (by decide), kvGet_kvPop_ne _ _ _ (by decide)]
        exact hp
      have hppok : ∀ c : DownloaderCfg, prepareProxies c (prepareVerify hj.1)
          = Except.ok (prepareVerify hj.1) := by
        intro c
        unfold prepareProxies
        have hhas : kvHas (prepareVerify hj.1) "proxies" = true := by
          simp [kvHas, hpv]
        rw [if_pos hhas]
      unfold prepareAfterHeaders
      rw [hppok, hppok]
      rfl

/-- Claim C6 (amended): a fresh independent client is created exactly when,
after preparation, `proxies` is truthy, or `verify` is not `None`, or
`cert` is not `None`; the shared session is used only when none of these
hold, no per-call session override was supplied and `use_session` is on.
Because `prepare_request` defaults `verify` to `False` — and `False is not
None` — every prepared call whose caller supplied no explicit `verify` is
executed on a fresh client, never on the shared session. -/
theorem claim_C6_amended (use_session : Bool) (session : Val) (kwargs : KV)
    (verify : Val) (hv : kvGet kwargs "verify" = some verify) :
    (Downloader.download_by_httpx_session use_session session kwargs
        = Except.ok SessionChoice.fresh ↔
      (((kvGet kwargs "proxies").getD Val.none).truthy
        || !verify.isNone
        || !((kvGet kwargs "cert").getD Val.none).isNone) = true) ∧
    (Downloader.download_by_httpx_session use_session session kwargs
        = Except.ok SessionChoice.shared ↔
      ((((kvGet kwargs "proxies").getD Val.none).truthy
          || !verify.isNone
          || !((kvGet kwargs "cert").getD Val.none).isNone) = false ∧
        session.isNone = true ∧ use_session = true)) ∧
    (∀ (cfg : DownloaderCfg) (request : Val) (kwargs0 : KV)
        (out : Val × Val × Val × KV),
      kvGet (mergedOptions request kwargs0) "verify" = Option.none →
      Downloader.prepare_request cfg request kwargs0 = Except.ok out →
      Downloader.download_by_httpx_session use_session out.1 out.2.2.2
        = Except.ok SessionChoice.fresh) := by
  have hstep : Downloader.download_by_httpx_session use_session session kwargs
      = (if (((kvGet kwargs "proxies").getD Val.none).truthy
            || !verify.isNone
            || !((kvGet kwargs "cert").getD Val.none).isNone) = true
        then Except.ok SessionChoice.fresh
        else if (!session.isNone) = true then Except.ok SessionChoice.override
        else if use_session = true then Except.ok SessionChoice.shared
        else Except.ok SessionChoice.bareModule) := by
    unfold Downloader.download_by_httpx_session
    rw [hv]
  refine ⟨?_, ?_, ?_⟩
  · rw [hstep]
    by_cases hc : (((kvGet kwargs "proxies").getD Val.none).truthy
        || !verify.isNone
        || !((kvGet kwargs "cert").getD Val.none).isNone) = true
    · simp [hc]
    · rw [if_neg hc]
      constructor
      · intro hh
        exfalso
        by_cases hD : (!session.isNone) = true
        · rw [if_pos hD] at hh
          simp at hh
        · rw [if_neg hD] at hh
          by_cases hu : use_session = true
          · rw [if_pos hu] at hh
            simp at hh
          · rw [if_neg hu] at hh
            simp at hh
      · intro hh
        exact absurd hh hc
  · rw [hstep]
    by_cases hc : (((kvGet kwargs "proxies").getD Val.none).truthy
        || !verify.isNone
        || !((kvGet kwargs "cert").getD Val.none).isNone) = true
    · rw [if_pos hc]
      constructor
      · intro hh
        simp at hh
      · rintro ⟨hfalse, _, _⟩
        rw [hc] at hfalse
        cases hfalse
    · rw [if_neg hc]
      have hcf : (((kvGet kwargs "proxies").getD Val.none).truthy
          || !verify.isNone
          || !((kvGet kwargs "cert").getD Val.none).isNone) = false := by
        cases hx : (((kvGet kwargs "proxies").getD Val.none).truthy
            || !verify.isNone
            || !((kvGet kwargs "cert").getD Val.none).isNone)
        · rfl
        · exact absurd hx hc
      by_cases hD : (!session.isNone) = true
      · rw [if_pos hD]
        constructor
        · intro hh
          simp at hh
        · rintro ⟨_, hs, _⟩
          rw [hs] at hD
          simp at hD
      · rw [if_neg hD]
        have hDs : session.isNone = true := by
          cases hsn : session.isNone
          · rw [hsn] at hD
            simp at hD
          · rfl
        by_cases hu : use_session = true
        · rw [if_pos hu]
          simp [hcf, hDs, hu]
        · rw [if_neg hu]
          constructor
          · intro hh
            simp at hh
          · rintro ⟨_, _, hu2⟩
            exact absurd hu2 hu
  · intro cfg request kwargs0 out hnone hok
    have hb : kvGet out.2.2.2 "verify" = some (Val.bool false) :=
      prepare_request_verify_default cfg request kwargs0 out hnone hok
    unfold Downloader.download_by_httpx_session
    rw [hb]
    simp [Val.isNone]

/-- A concrete Downloader configuration: proxying disabled, no pools, no
default headers, no header formatting. -/
def cfgNoProxy : DownloaderCfg :=
  DownloaderCfg.mk false (Val.int 20) false false false false Val.none false
    Val.none Val.none [] id ""

/-- Claim C6 counterexample: a `download()` call with no explicit
`proxies`, `verify` or `cert` (empty call kwargs, bare URL request,
proxying disabled) is executed on a FRESH client, not the shared session:
`prepare_request` defaults `verify` to `False`, and `False is not None`
makes `_download_by_httpx` create a fresh client. -/
theorem claim_C6_counterexample :
    Downloader.prepare_request cfgNoProxy (Val.str "http://a.com/")
        [("cookies", Val.dict [])]
      = Except.ok (Val.none, Val.str "GET", Val.str "http://a.com/",
          [("cookies", Val.dict []), ("headers", Val.dict []),
            ("verify", Val.bool false), ("stream", Val.bool false),
            ("timeout", Val.int 20)]) ∧
    Downloader.download_by_httpx_session true Val.none
        [("cookies", Val.dict []), ("headers", Val.dict []),
          ("verify", Val.bool false), ("stream", Val.bool false),
          ("timeout", Val.int 20)]
      = Except.ok SessionChoice.fresh ∧
    SessionChoice.fresh ≠ SessionChoice.shared :=
  ⟨rfl, rfl, by decide⟩

theorem claim_C6_witness :
    kvGet [("cookies", Val.dict []), ("headers", Val.dict []),
        ("verify", Val.bool false), ("stream", Val.bool false),
        ("timeout", Val.int 20)] "verify" = some (Val.bool false) ∧
    (Downloader.download_by_httpx_session true Val.none
        [("cookies", Val.dict []), ("headers", Val.dict []),
          ("verify", Val.bool false), ("stream", Val.bool false),
          ("timeout", Val.int 20)]
        = Except.ok SessionChoice.fresh ↔
      (((kvGet [("cookies", Val.dict []), ("headers", Val.dict []),
            ("verify", Val.bool false), ("stream", Val.bool false),
            ("timeout", Val.int 20)] "proxies").getD Val.none).truthy
        || !(Val.bool false).isNone
        || !((kvGet [("cookies", Val.dict []), ("headers", Val.dict []),
            ("verify", Val.bool false), ("stream", Val.bool false),
            ("timeout", Val.int 20)] "cert").getD Val.none).isNone) = true) :=
  ⟨rfl,
    (claim_C6_amended true Val.none
      [("cookies", Val.dict []), ("headers", Val.dict []),
        ("verify", Val.bool false), ("stream", Val.bool false),
        ("timeout", Val.int 20)] (Val.bool false) rfl).1⟩

/-- A concrete configuration with proxying enabled and a proxy pool whose
`get()` yields `None`. -/
def cfgProxyEmptyPool : DownloaderCfg :=
  DownloaderCfg.mk true (Val.int 20) false false false false Val.none false
    Val.none Val.none [] id ""

theorem claim_C7_witness :
    wfHeadersOption (mergedOptions (Val.str "http://a.com/") []) ∧
    (Downloader.prepare_request cfgProxyEmptyPool (Val.str "http://a.com/") []
        = Except.error "no valid proxy" ↔
      cfgProxyEmptyPool.proxy_enable = true ∧
      kvGet (mergedOptions (Val.str "http://a.com/") []) "proxies"
        = Option.none ∧
      cfgProxyEmptyPool.proxy_pool_get.truthy = false) :=
  ⟨(fun _ hh _ => nomatch hh),
    (claim_C7 cfgProxyEmptyPool (Val.str "http://a.com/") []
      (fun _ hh _ => nomatch hh)).1⟩

/-- Claim C10: when a structured request record and the call-time keyword
overrides both supply the same option, `prepare_request` uses the record's
value: the request dict's fields are merged over the keyword arguments and
take precedence; in particular an option such as `timeout` supplied in the
record reaches the prepared kwargs with the record's value. -/
theorem claim_C10 (d : List (String × Val)) (kwargs0 : KV) (k : String)
    (v : Val) (hnd : (d.map Prod.fst).Nodup) (hk : kvGet d k = some v) :
    kvGet (mergedOptions (Val.dict d) kwargs0) k = some v ∧
    (k = "timeout" →
      ∀ (cfg : DownloaderCfg) (out : Val × Val × Val × KV),
        Downloader.prepare_request cfg (Val.dict d) kwargs0 = Except.ok out →
        kvGet out.2.2.2 "timeout" = some v) := by
  have hm : kvGet (mergedOptions (Val.dict d) kwargs0) k = some v := by
    unfold mergedOptions
    exact kvGet_kvUpdate_of_mem kwargs0 d k v hnd hk
  refine ⟨hm, ?_⟩
  rintro rfl cfg out h
  exact prepare_request_ok_preserves cfg (Val.dict d) kwargs0 out "timeout" v
    (by decide) (by decide) (by decide) (by decide) hm h

theorem claim_C10_witness :
    (([("timeout", Val.int 5), ("url", Val.str "http://a.com/")].map
        Prod.fst).Nodup ∧
      kvGet [("timeout", Val.int 5), ("url", Val.str "http://a.com/")]
        "timeout" = some (Val.int 5)) ∧
    kvGet (mergedOptions
        (Val.dict [("timeout", Val.int 5), ("url", Val.str "http://a.com/")])
        [("timeout", Val.int 99)]) "timeout" = some (Val.int 5) :=
  ⟨⟨by decide, rfl⟩,
    (claim_C10 [("timeout", Val.int 5), ("url", Val.str "http://a.com/")]
      [("timeout", Val.int 99)] "timeout" (Val.int 5) (by decide) rfl).1⟩
